import Mathlib

/-!
Verification development for the concentrated-liquidity DEX core
(galachain-dex): swap state machine (`processSwapSteps`), the position
paging bookmark protocol (`getUserPositions`), protocol-fee configuration
(`configurePoolDexFee`) and the `requirePosititve` input guard.

Numeric values are modelled as exact rationals (`ℚ`): the source uses an
arbitrary-precision decimal library (BigNumber) whose add/sub/mul are
exact; the canonical-scale reduction `f18` is modelled explicitly.
Errors are modelled with `Except` over an explicit error type mirroring
the error classes thrown by the source.
-/

/-- Error classes of the chain framework, as used by the sources:
`ConflictError`, `ValidationFailedError`, `NotFoundError`,
`UnauthorizedError`, each carrying a message. -/
inductive DexError where
  | conflictError (msg : String)
  | validationFailedError (msg : String)
  | notFoundError (msg : String)
  | unauthorizedError (msg : String)
deriving DecidableEq

/-- Whether an error is a validation-failure (used to compare error
classes in statements). -/
def DexError.isValidation : DexError → Bool
  | .validationFailedError _ => true
  | _ => false

/-- Modelled from the spec (§4.1): the `f18` reduction truncates
(round-toward-zero) to 18 fractional digits; `f18` itself is not under
src/. -/
def f18 (q : ℚ) : ℚ :=
  if 0 ≤ q then (⌊q * 10 ^ 18⌋ : ℚ) / 10 ^ 18 else (⌈q * 10 ^ 18⌉ : ℚ) / 10 ^ 18

/-- Result quadruple of the swap-step primitive, mirroring the
destructuring `[state.sqrtPrice, step.amountIn, step.amountOut,
step.feeAmount]` in the source. -/
structure SwapStepResult where
  sqrtPriceNext : ℚ
  amountIn : ℚ
  amountOut : ℚ
  feeAmount : ℚ
deriving DecidableEq

/-- Modelled from the spec (§4.4): the pure swap-step primitive
`computeSwapStep(sqrtPriceCurrent, sqrtPriceTarget, liquidity,
amountRemaining, feePips)`, which is not under src/.  Direction is
inferred from `sqrtPriceTarget ≶ sqrtPriceCurrent`; exact-input means
`amountRemaining > 0`; fees are charged on `amountIn` only, at rate
`feePips / (1 - feePips)`; the closed-form constant-liquidity deltas are
`Δx = L (p - p') / (p p')` and `Δy = L (p' - p)` in the two directions. -/
def computeSwapStep (p pt L rem fee : ℚ) : SwapStepResult :=
  let zf := pt < p
  if 0 < rem then
    -- exact input: available net input is rem * (1 - fee)
    let maxIn := if zf then L * (p - pt) / (p * pt) else L * (pt - p)
    let avail := rem * (1 - fee)
    if maxIn ≤ avail then
      let pn := pt
      let aOut := if zf then L * (p - pn) else L * (pn - p) / (p * pn)
      ⟨pn, maxIn, aOut, maxIn * fee / (1 - fee)⟩
    else
      let aIn := avail
      let pn := if zf then L * p / (L + aIn * p) else p + aIn / L
      let aOut := if zf then L * (p - pn) else L * (pn - p) / (p * pn)
      ⟨pn, aIn, aOut, rem * fee⟩
  else
    -- exact output: the output target is -rem
    let maxOut := if zf then L * (p - pt) else L * (pt - p) / (p * pt)
    if maxOut ≤ -rem then
      let pn := pt
      let aIn := if zf then L * (p - pn) / (p * pn) else L * (pn - p)
      ⟨pn, aIn, maxOut, aIn * fee / (1 - fee)⟩
    else
      let aOut := -rem
      let pn := if zf then p - aOut / L else L * p / (L - aOut * p)
      let aIn := if zf then L * (p - pn) / (p * pn) else L * (pn - p)
      ⟨pn, aIn, aOut, aIn * fee / (1 - fee)⟩

/-- Modelled from the spec (§4.2): the tick bound `TickData.MIN_TICK`;
`TickData` is not under src/.  The numeric value is the standard
concentrated-liquidity bound (the largest tick range for which
`1.0001 ^ (t / 2)` stays representable). -/
def MIN_TICK : ℤ := -887272

/-- Modelled from the spec (§4.2): the tick bound `TickData.MAX_TICK`. -/
def MAX_TICK : ℤ := 887272

/-- Modelled from the spec (§2.1, §4.1): fixed-point square root,
truncated to the canonical scale of 18 fractional digits. -/
def ratSqrt18 (x : ℚ) : ℚ := (Nat.sqrt (Int.toNat ⌊x * 10 ^ 36⌋) : ℚ) / 10 ^ 18

/-- Modelled from the spec (§4.2): `tickToSqrtPrice(t) = 1.0001 ^ (t / 2)`
evaluated in the fixed-point domain (exact up to canonical scale);
`tickToSqrtPrice` is not under src/. -/
def tickToSqrtPrice (t : ℤ) : ℚ := ratSqrt18 ((10001 / 10000 : ℚ) ^ t)

/-- Modelled from the spec (§4.2): `sqrtPriceToTick(p) =
floor(log_{sqrt(1.0001)}(p))`, realised over the fixed-point
`tickToSqrtPrice` as the greatest in-range tick whose sqrt price does not
exceed `p`; `sqrtPriceToTick` is not under src/. -/
def sqrtPriceToTick (p : ℚ) : ℤ :=
  ((List.range (Int.toNat (MAX_TICK - MIN_TICK) + 1)).filter
      (fun i : ℕ => tickToSqrtPrice (MIN_TICK + (i : ℤ)) ≤ p)).foldl
    (fun _ i => MIN_TICK + (i : ℤ)) MIN_TICK

/-- Modelled from the spec (§3): the tick bitmap, abstracted as the
indicator of initialised compressed tick indices: index `w * 256 + n`
(that is, tick `(w * 256 + n) * tickSpacing`) is initialised iff bit `n`
of word `w` is set. -/
abbrev TickBitmap := ℤ → Bool

/-- Modelled from the spec (§4.3): `nextInitializedTickInSameWord` returns
the closest initialised tick within the relevant 256-bit word in the
direction of travel (`zeroForOne` scans toward lower ticks starting at the
current compressed tick; the upward scan starts at the next compressed
tick), or the corresponding word-boundary tick with `initialised = false`.
The `sqrtPrice` argument is carried by the source call signature; the spec
assigns it no role in the scan. -/
def nextInitialisedTickWithInSameWord (bitmap : TickBitmap) (tick spacing : ℤ)
    (zeroForOne : Bool) (sqrtPrice : ℚ) : ℤ × Bool :=
  if zeroForOne then
    let compressed := tick / spacing
    let wordPos := compressed / 256
    let bitPos := compressed % 256
    match (List.range (Int.toNat bitPos + 1)).reverse.find?
        (fun b : ℕ => bitmap (wordPos * 256 + (b : ℤ))) with
    | some b => ((wordPos * 256 + (b : ℤ)) * spacing, true)
    | none => (wordPos * 256 * spacing, false)
  else
    let compressed := tick / spacing + 1
    let wordPos := compressed / 256
    let bitPos := compressed % 256
    match ((List.range (256 - Int.toNat bitPos)).map
          (fun i => Int.toNat bitPos + i)).find?
        (fun b : ℕ => bitmap (wordPos * 256 + (b : ℤ))) with
    | some b => ((wordPos * 256 + (b : ℤ)) * spacing, true)
    | none => ((wordPos * 256 + 255) * spacing, false)

/-- Per-tick record: the `TickData` fields involved in crossing (§3). -/
structure TickDataRec where
  liquidityNet : ℚ
  feeGrowthOutside0 : ℚ
  feeGrowthOutside1 : ℚ
deriving DecidableEq

/-- The ledger's per-pool tick records, keyed by tick index. -/
abbrev TickStore := List (ℤ × TickDataRec)

def lookupTick : TickStore → ℤ → Option TickDataRec
  | [], _ => none
  | (k, v) :: rest, t => if k = t then some v else lookupTick rest t

def updateTick : TickStore → ℤ → TickDataRec → TickStore
  | [], _, _ => []
  | (k, v) :: rest, t, td =>
    if k = t then (k, td) :: rest else (k, v) :: updateTick rest t td

/-- Modelled from the spec (§4.5): `fetchOrCreateAndCrossTick` (not under
src/) loads the tick record — failing with not-found only in the
consistency-violation case where the bitmap bit is set but the record is
missing — updates `feeGrowthOutside{0,1} := feeGrowthGlobal{0,1} -
feeGrowthOutside{0,1}`, persists, and returns `liquidityNet`. -/
def fetchOrCreateAndCrossTick (store : TickStore) (tick : ℤ) (fg0 fg1 : ℚ) :
    Except DexError (ℚ × TickStore) :=
  match lookupTick store tick with
  | none => .error (.notFoundError ("Tick data not found"))
  | some td =>
      .ok (td.liquidityNet,
        updateTick store tick
          { td with feeGrowthOutside0 := fg0 - td.feeGrowthOutside0,
                    feeGrowthOutside1 := fg1 - td.feeGrowthOutside1 })

/-- The pool fields read by the swap engine (§3).  The tick records are
carried separately as a `TickStore` (the ledger keys them under the
pool's hash, which is constant during one swap). -/
structure Pool where
  bitmap : TickBitmap
  tickSpacing : ℤ
  fee : ℚ
  protocolFees : ℚ
  feeGrowthGlobal0 : ℚ
  feeGrowthGlobal1 : ℚ

/-- The transient swap state of §3, mirroring `SwapState` of the source. -/
structure SwapState where
  sqrtPrice : ℚ
  tick : ℤ
  liquidity : ℚ
  amountSpecifiedRemaining : ℚ
  amountCalculated : ℚ
  feeGrowthGlobalX : ℚ
  protocolFee : ℚ
deriving DecidableEq

/-- swap.helper.ts lines 76-82: the `(step.tickNext, step.initialised)`
pair of the current iteration. -/
def stepNext (pool : Pool) (zeroForOne : Bool) (s : SwapState) : ℤ × Bool :=
  nextInitialisedTickWithInSameWord pool.bitmap s.tick pool.tickSpacing zeroForOne
    s.sqrtPrice

/-- swap.helper.ts line 90: `step.sqrtPriceNext`. -/
def stepSqrtPriceNext (pool : Pool) (zeroForOne : Bool) (s : SwapState) : ℚ :=
  tickToSqrtPrice (stepNext pool zeroForOne s).1

/-- swap.helper.ts lines 95-101: the target price passed to
`computeSwapStep` is `step.sqrtPriceNext` clamped to the caller's
`sqrtPriceLimit` when the next tick lies beyond the limit. -/
def stepTarget (pool : Pool) (limit : ℚ) (zeroForOne : Bool) (s : SwapState) : ℚ :=
  if (if zeroForOne then stepSqrtPriceNext pool zeroForOne s < limit
      else limit < stepSqrtPriceNext pool zeroForOne s)
  then limit else stepSqrtPriceNext pool zeroForOne s

/-- swap.helper.ts lines 93-105: the step's computed quadruple. -/
def stepCompute (pool : Pool) (limit : ℚ) (zeroForOne : Bool) (s : SwapState) :
    SwapStepResult :=
  computeSwapStep s.sqrtPrice (stepTarget pool limit zeroForOne s) s.liquidity
    s.amountSpecifiedRemaining pool.fee

/-- swap.helper.ts lines 118-123: when protocol fees are enabled, divert
`delta = feeAmount * protocolFees` out of the step's fee amount into the
swap's protocol-fee accumulator; returns the remaining fee amount and the
updated accumulator. -/
def applyProtocolFee (protocolFees feeAmount protFee : ℚ) : ℚ × ℚ :=
  if 0 < protocolFees then
    (feeAmount - feeAmount * protocolFees, protFee + feeAmount * protocolFees)
  else (feeAmount, protFee)

/-- swap.helper.ts lines 125-128: accrue the post-diversion fee amount,
per unit of liquidity, into the global fee-growth accumulator; dropped
when liquidity is not positive. -/
def applyFeeGrowth (liquidity feeAmount fg : ℚ) : ℚ :=
  if 0 < liquidity then fg + feeAmount / liquidity else fg

/-- The step's fee amount after protocol-fee diversion (the amount that
line 127 accrues into fee growth). -/
def stepPostFee (pool : Pool) (limit : ℚ) (zeroForOne : Bool) (s : SwapState) : ℚ :=
  (applyProtocolFee pool.protocolFees
    (stepCompute pool limit zeroForOne s).feeAmount 0).1

/-- swap.helper.ts lines 107-116: update the remaining and calculated
amounts according to the exact-input / exact-output sign convention, and
record the step's new sqrt price (line 93 writes it into the state). -/
def stepUpdateAmounts (exactInput : Bool) (r : SwapStepResult) (s : SwapState) :
    SwapState :=
  if exactInput then
    { s with sqrtPrice := r.sqrtPriceNext,
             amountSpecifiedRemaining :=
               s.amountSpecifiedRemaining - (r.amountIn + r.feeAmount),
             amountCalculated := s.amountCalculated - r.amountOut }
  else
    { s with sqrtPrice := r.sqrtPriceNext,
             amountSpecifiedRemaining := s.amountSpecifiedRemaining + r.amountOut,
             amountCalculated := s.amountCalculated + (r.amountIn + r.feeAmount) }

/-- swap.helper.ts lines 118-128: protocol-fee diversion followed by the
fee-growth accrual. -/
def stepAccrue (protocolFees : ℚ) (feeAmount : ℚ) (s1 : SwapState) : SwapState :=
  let pf := applyProtocolFee protocolFees feeAmount s1.protocolFee
  { s1 with protocolFee := pf.2,
            feeGrowthGlobalX := applyFeeGrowth s1.liquidity pf.1 s1.feeGrowthGlobalX }

/-- swap.helper.ts lines 130-151: the tick-crossing tail of the loop body.
If the step's price reached `step.sqrtPriceNext`, cross the tick when it is
initialised (passing the fee-growth pair in the direction-dependent order,
negating the returned `liquidityNet` when `zeroForOne`) and move the tick
pointer to `tickNext - 1` or `tickNext`; otherwise, when the price moved at
all, recompute the tick from the price. -/
def stepCross (pool : Pool) (zeroForOne : Bool) (next : ℤ × Bool) (spn pstart : ℚ)
    (s2 : SwapState) (store : TickStore) : Except DexError (SwapState × TickStore) :=
  if s2.sqrtPrice = spn then
    if next.2 then
      match fetchOrCreateAndCrossTick store next.1
          (if zeroForOne then s2.feeGrowthGlobalX else pool.feeGrowthGlobal0)
          (if zeroForOne then pool.feeGrowthGlobal1 else s2.feeGrowthGlobalX) with
      | .error e => .error e
      | .ok (net, store2) =>
          let net2 := if zeroForOne then -net else net
          .ok ({ s2 with liquidity := s2.liquidity + net2,
                         tick := if zeroForOne then next.1 - 1 else next.1 }, store2)
    else
      .ok ({ s2 with tick := if zeroForOne then next.1 - 1 else next.1 }, store)
  else if s2.sqrtPrice ≠ pstart then
    .ok ({ s2 with tick := sqrtPriceToTick s2.sqrtPrice }, store)
  else
    .ok (s2, store)

/-- One iteration of the while-loop body of `processSwapSteps`
(swap.helper.ts lines 64-151): tick scan, bounds check, swap step, amount
updates, protocol fee, fee growth, and tick crossing. -/
def swapStepOnce (pool : Pool) (limit : ℚ) (exactInput zeroForOne : Bool)
    (s : SwapState) (store : TickStore) : Except DexError (SwapState × TickStore) :=
  let next := stepNext pool zeroForOne s
  if next.1 < MIN_TICK ∨ MAX_TICK < next.1 then
    .error (.conflictError ("Not enough liquidity available in pool"))
  else
    stepCross pool zeroForOne next (stepSqrtPriceNext pool zeroForOne s) s.sqrtPrice
      (stepAccrue pool.protocolFees (stepCompute pool limit zeroForOne s).feeAmount
        (stepUpdateAmounts exactInput (stepCompute pool limit zeroForOne s) s))
      store

/-- The while-loop of `processSwapSteps` (swap.helper.ts lines 59-152)
with explicit fuel: loop while `f18(amountSpecifiedRemaining) ≠ 0` and
`sqrtPrice ≠ sqrtPriceLimit`; `none` means the fuel ran out before the
loop exited. -/
def processSwapSteps : ℕ → Pool → ℚ → Bool → Bool → SwapState → TickStore →
    Option (Except DexError (SwapState × TickStore))
  | 0, _, _, _, _, _, _ => none
  | fuel + 1, pool, limit, exactInput, zeroForOne, s, store =>
    if f18 s.amountSpecifiedRemaining = 0 ∨ s.sqrtPrice = limit then
      some (.ok (s, store))
    else
      match swapStepOnce pool limit exactInput zeroForOne s store with
      | .error e => some (.error e)
      | .ok (s2, store2) =>
          processSwapSteps fuel pool limit exactInput zeroForOne s2 store2

/-- Transaction-boundary semantics (§7): a swap that throws commits no
ledger write; the tick store is replaced only when the loop returns
normally. -/
def swapCommitted (fuel : ℕ) (pool : Pool) (limit : ℚ) (exactInput zeroForOne : Bool)
    (s : SwapState) (store : TickStore) : TickStore :=
  match processSwapSteps fuel pool limit exactInput zeroForOne s store with
  | some (.ok (_, store2)) => store2
  | _ => store

/-- A pool with an empty bitmap, 30 bps fee tier and no protocol fee. -/
def poolA : Pool := ⟨fun _ => false, 1, 3 / 1000, 0, 0, 0⟩

/-- A pool whose bitmap has exactly tick 0 initialised, at 30 bps fee and
a 25 percent protocol fee. -/
def poolC : Pool := ⟨fun t => t == 0, 1, 3 / 1000, 1 / 4, 5, 7⟩

/-- A swap state sitting above tick 0 with an exact-output request whose
target is met exactly when the price reaches tick 0. -/
def stateC : SwapState := ⟨2, 0, 100, -100, 0, 0, 0⟩

/-- A tick store holding the record of tick 0. -/
def storeC : TickStore := [(0, ⟨3, 11, 13⟩)]

/-- The state after the concrete crossing step on `poolC`. -/
def stateC2 : SwapState := ⟨1, -1, 97, 0, 50000 / 997, 9 / 7976, 75 / 1994⟩

/-- The tick store after the concrete crossing step on `poolC`. -/
def storeC2 : TickStore := [(0, ⟨3, -87727 / 7976, -6⟩)]

/-- The tick-0 record of `storeC`. -/
def tdC : TickDataRec := ⟨3, 11, 13⟩

/-- Termination measure of the swap loop: the number of ticks left to the
relevant bound in the direction of travel. -/
def swapMeasure (zeroForOne : Bool) (s : SwapState) : ℕ :=
  if zeroForOne then (s.tick - (MIN_TICK - 1)).toNat else (MAX_TICK - s.tick).toNat

/-- The entry states of the loop iterations actually started by
`processSwapSteps` (same guard and same step as the loop itself). -/
def swapTrace : ℕ → Pool → ℚ → Bool → Bool → SwapState → TickStore → List SwapState
  | 0, _, _, _, _, _, _ => []
  | fuel + 1, pool, limit, exactInput, zeroForOne, s, store =>
    if f18 s.amountSpecifiedRemaining = 0 ∨ s.sqrtPrice = limit then []
    else
      match swapStepOnce pool limit exactInput zeroForOne s store with
      | .error _ => [s]
      | .ok (s2, store2) =>
          s :: swapTrace fuel pool limit exactInput zeroForOne s2 store2

/-- A pool with an empty bitmap, 30 bps fee tier and the whole fee
diverted to the protocol (`protocolFees = 1`). -/
def poolD : Pool := ⟨fun _ => false, 1, 3 / 1000, 1, 0, 0⟩

/-- The state after the concrete step on `poolD`. -/
def stateD2 : SwapState := ⟨1, -1, 100, 0, 50000 / 997, 0, 150 / 997⟩

deriving instance DecidableEq for Except

/-- A `DexPositionOwner` record (§3): the owner's insertion-ordered map
from textual tick ranges to position-id lists. -/
structure DexPositionOwner where
  poolHash : String
  tickRangeMap : List (String × List String)
deriving DecidableEq

/-- The flattened `(poolHash, tickRange, positionId)` triplet built at
getUserPositions.ts lines 66-74.  The per-position fetch
(`getDexPosition`) is not under src/ and only forwards the triplet's
record, so positions are identified with their triplets here. -/
structure PositionInfo where
  poolHash : String
  tickRange : String
  positionId : String
deriving DecidableEq

/-- getUserPositions.ts lines 66-74: flatten a page of owner records,
preserving insertion order. -/
def flattenOwners (owners : List DexPositionOwner) : List PositionInfo :=
  owners.flatMap (fun o =>
    o.tickRangeMap.flatMap (fun tr => tr.2.map (fun pid => ⟨o.poolHash, tr.1, pid⟩)))

/-- The backing store's pages of owner records, in scan order. -/
abbrev OwnerLedger := List (List DexPositionOwner)

/-- An opaque chain cursor naming the page at the given index (the ledger
bookmark strings are opaque to the core, §6). -/
def pageCursor (idx : ℕ) : String := String.mk (List.replicate idx 'x')

/-- Modelled from the spec (§6): the ledger collaborator
`getObjectsByPartialCompositeKeyWithPagination`, which is not under src/:
fetch the page named by the cursor (the empty cursor means the first
page) and return the next page's cursor, empty when no further page
exists. -/
def fetchPage (ledger : OwnerLedger) (cursor : String) :
    List DexPositionOwner × String :=
  let idx := cursor.length
  (ledger.getD idx [],
    if idx + 1 < ledger.length then pageCursor (idx + 1) else "")

/-- Modelled from the spec (§3): `genBookMark` (not under src/) joins the
chain cursor and the local offset as `<chainBookmark>|<localBookmark>`. -/
def genBookMark (chain localPart : String) : String := chain ++ "|" ++ localPart

def splitBarAux : List Char → List Char × Option (List Char)
  | [] => ([], none)
  | c :: rest =>
    if c = '|' then ([], some rest)
    else
      let r := splitBarAux rest
      (c :: r.1, r.2)

/-- Modelled from the spec (§3): `splitBookmark` (not under src/) splits
`<chainBookmark>|<localBookmark>` at the first bar; a bookmark without a
bar is all chain cursor, and the empty bookmark means from the start. -/
def splitBookmark (b : String) : String × String :=
  let r := splitBarAux b.data
  (String.mk r.1, String.mk (r.2.getD []))

def parseLocalAux : List Char → ℕ → Option ℕ
  | [], acc => some acc
  | c :: rest, acc =>
    if 48 ≤ c.toNat ∧ c.toNat ≤ 57 then
      parseLocalAux rest (acc * 10 + (c.toNat - 48))
    else none

/-- getUserPositions.ts line 47 applies `Number` to the local bookmark:
decimal strings parse to their value and the empty string to 0; a
non-numeric local part (`NaN` in the source) makes the skip comparison
and the skip decrement inert, which the model renders as 0. -/
def parseLocal (s : String) : ℕ := (parseLocalAux s.data 0).getD 0

/-- The loop state of getUserPositions.ts lines 46-51: current chain
cursor, positions still to skip, positions still required, the candidate
local bookmark, the last-element flag and the accumulated positions. -/
structure PagingState where
  cursor : String
  toSkip : ℕ
  required : ℤ
  newLocal : ℤ
  isLast : Bool
  positions : List PositionInfo
deriving DecidableEq

/-- getUserPositions.ts lines 100-113: consume positions from the page
slice, decrementing the required count and tracking whether the page's
last element was consumed; stops when the required count reaches zero. -/
def consume : List PositionInfo → ℤ → Bool → List PositionInfo × ℤ × Bool
  | [], req, last => ([], req, last)
  | p :: rest, req, _ =>
    let req2 := req - 1
    let last2 := rest.isEmpty
    if req2 = 0 then ([p], req2, last2)
    else
      let r := consume rest req2 last2
      (p :: r.1, r.2.1, r.2.2)

/-- One pass of the do-while body of getUserPositions.ts lines 53-117;
the boolean is false exactly when the body hit `break`. -/
def userPosLoopBody (ledger : OwnerLedger) (st : PagingState) :
    PagingState × Bool :=
  let page := fetchPage ledger st.cursor
  let nl := (st.toSkip : ℤ) + st.required
  let list := flattenOwners page.1
  if list.length = 0 then
    if page.2 ≠ "" then
      ({ st with cursor := page.2, newLocal := nl }, true)
    else
      ({ st with isLast := true, cursor := "", newLocal := nl }, false)
  else if list.length ≤ st.toSkip then
    ({ st with toSkip := st.toSkip - list.length, cursor := page.2, newLocal := nl },
      true)
  else
    let c := consume (list.drop st.toSkip) st.required st.isLast
    ({ st with toSkip := 0, required := c.2.1, isLast := c.2.2,
               positions := st.positions ++ c.1,
               cursor := if c.2.2 then page.2 else st.cursor,
               newLocal := nl }, true)

/-- The do-while loop of getUserPositions.ts lines 53-117 with explicit
fuel: run the body, then repeat while positions are still required and a
chain cursor remains. -/
def userPosLoop (ledger : OwnerLedger) : ℕ → PagingState → Option PagingState
  | 0, _ => none
  | fuel + 1, st =>
    let r := userPosLoopBody ledger st
    if r.2 then
      if r.1.required ≠ 0 ∧ r.1.cursor ≠ "" then userPosLoop ledger fuel r.1
      else some r.1
    else some r.1

/-- The initial loop state parsed from the request (lines 44-50). -/
def userPosInit (limit : ℤ) (bookmark : String) : PagingState :=
  ⟨(splitBookmark bookmark).1, parseLocal (splitBookmark bookmark).2, limit,
    (parseLocal (splitBookmark bookmark).2 : ℤ) + limit, false, []⟩

/-- getUserPositions.ts lines 125-128: the continuation bookmark built
from the final loop state. -/
def finishBookmark (fin : PagingState) : String :=
  if fin.cursor = "" ∧ fin.isLast = true then ""
  else genBookMark fin.cursor (if fin.isLast then "" else toString fin.newLocal)

/-- getUserPositions (getUserPositions.ts lines 40-134): run the paging
loop, raise `Invalid bookmark` when positions remain to be skipped, and
otherwise return the fetched positions and the continuation bookmark.
The fuel `ledger.length + 2` always suffices because every repeated
iteration advances the chain cursor. -/
def getUserPositions (ledger : OwnerLedger) (limit : ℤ) (bookmark : String) :
    Except DexError (List PositionInfo × String) :=
  match userPosLoop ledger (ledger.length + 2) (userPosInit limit bookmark) with
  | none => .error (.validationFailedError ("Paging did not terminate"))
  | some fin =>
    if fin.toSkip ≠ 0 then .error (.validationFailedError ("Invalid bookmark"))
    else .ok (fin.positions, finishBookmark fin)

def ledgerE : OwnerLedger :=
  [[⟨"h0", [("0:1", ["a", "b", "c", "d", "e", "f", "g", "h", "i", "j"])]⟩],
   [⟨"h1", [("0:1", ["k", "l", "m", "n", "o"])]⟩]]

def ledgerW3 : OwnerLedger := [[⟨"hw", [("0:1", ["a", "b"])]⟩]]

def finW3 : PagingState := ⟨"", 0, 0, 1, false, [⟨"hw", "0:1", "a"⟩]⟩

def ledgerW7 : OwnerLedger := [[⟨"h", [("0:1", ["a"])]⟩]]

def finW7 : PagingState := ⟨"", 2, 1, 4, false, []⟩

def ledgerW10 : OwnerLedger := [[⟨"h", [("0:1", ["a"])]⟩]]

/-- The on-chain protocol fee configuration object (§4.9): the list of
user identities authorized to update pool dex fees. -/
structure DexFeeConfig where
  authorities : List String
deriving DecidableEq

/-- The slice of the Pool entity relevant to configurePoolDexFee (§4.6):
identity fields and the protocol fee fraction. -/
structure PoolRec where
  token0 : String
  token1 : String
  fee : ℚ
  protocolFees : ℚ
deriving DecidableEq

/-- A pool's composite key: token0, token1 and fee tier (part_000
line 46; the fee is stringified there, injectively on the DTO value). -/
abbrev PoolKey := String × String × ℚ

/-- The chaincode context slice read by configurePoolDexFee: calling
user, the optional protocol fee configuration, and the pool store. -/
structure FeeCtx where
  callingUser : String
  feeConfig : Option DexFeeConfig
  pools : List (PoolKey × PoolRec)

/-- ConfigurePoolDexFeeDto: pool identifier and the requested fee. -/
structure ConfigurePoolDexFeeDto where
  token0 : String
  token1 : String
  fee : ℚ
  protocolFee : ℚ

/-- Modelled from the spec (§3 data-model invariant: pools store
`token0 < token1` under the canonical token ordering): `validateTokenOrder`
(not under src/) returns the pair when ordered and raises a validation
failure otherwise. -/
def validateTokenOrder (t0 t1 : String) : Except DexError (String × String) :=
  if t0 < t1 then .ok (t0, t1)
  else .error (.validationFailedError ("Token order is invalid"))

/-- Modelled from the spec (§4.6): `Pool.configureProtocolFee` (not under
src/) validates `0 ≤ f ≤ 1` and stores the new protocol fee, raising a
validation failure otherwise (§4.9). -/
def configureProtocolFee (p : PoolRec) (f : ℚ) : Except DexError PoolRec :=
  if 0 ≤ f ∧ f ≤ 1 then .ok { p with protocolFees := f }
  else .error (.validationFailedError ("Protocol fee is out of bounds"))

/-- Look a pool up by its composite key (part_000 line 47). -/
def lookupPool (ps : List (PoolKey × PoolRec)) (k : PoolKey) : Option PoolRec :=
  (ps.find? (fun e => e.1 == k)).map Prod.snd

/-- Write a pool back under its key (part_000 line 51). -/
def putPool (ps : List (PoolKey × PoolRec)) (k : PoolKey) (p : PoolRec) :
    List (PoolKey × PoolRec) :=
  (k, p) :: ps.filter (fun e => !(e.1 == k))

/-- configurePoolDexFee (part_000 lines 29-54): check the protocol fee
configuration exists and authorizes the caller, validate the token
order, load the pool (modelled as a NotFound failure when absent, per
the ledger lookup), update its protocol fee and persist it, returning
the new fee together with the updated pool store. -/
def configurePoolDexFee (ctx : FeeCtx) (dto : ConfigurePoolDexFeeDto) :
    Except DexError (List (PoolKey × PoolRec) × ℚ) :=
  match ctx.feeConfig with
  | none => .error (.notFoundError
      ("Protocol fee configuration has yet to be defined. Dex fee configuration is not defined."))
  | some cfg =>
    if ctx.callingUser ∈ cfg.authorities then
      match validateTokenOrder dto.token0 dto.token1 with
      | .error e => .error e
      | .ok (t0, t1) =>
        match lookupPool ctx.pools (t0, t1, dto.fee) with
        | none => .error (.notFoundError ("Pool does not exist"))
        | some pool =>
          match configureProtocolFee pool dto.protocolFee with
          | .error e => .error e
          | .ok pool2 => .ok (putPool ctx.pools (t0, t1, dto.fee) pool2, dto.protocolFee)
    else
      .error (.unauthorizedError
        ("CallingUser " ++ ctx.callingUser ++ " is not authorized to create or update"))

def ctxW8 : FeeCtx :=
  ⟨"alice", some ⟨["alice"]⟩, [(("A", "B", 1), ⟨"A", "B", 1, 0⟩)]⟩

def dtoW8 : ConfigurePoolDexFeeDto := ⟨"A", "B", 1, 1 / 10⟩

/-- An argument to the variadic requirePosititve helper
(format.helper.ts line 18): either a decimal (BigNumber) value or a
value of any other type. -/
inductive DexArg where
  | bigNumber (v : ℚ)
  | nonDecimal
deriving DecidableEq

/-- requirePosititve (format.helper.ts lines 18-26): scan the arguments
in order and throw a Conflict error on the first decimal argument that
is strictly negative; every other argument is ignored. -/
def requirePosititve : List DexArg → Except DexError Unit
  | [] => .ok ()
  | .bigNumber v :: rest =>
    if v < 0 then .error (.conflictError ("Uint Out of Bounds error :Uint"))
    else requirePosititve rest
  | .nonDecimal :: rest => requirePosititve rest

theorem f18_zero : f18 0 = 0 := by
  simp [f18]

theorem ne_zero_of_f18_ne_zero {q : ℚ} (h : f18 q ≠ 0) : q ≠ 0 := by
  intro hq
  exact h (hq ▸ f18_zero)

/-- Progress dichotomy of the swap-step primitive: each step either moves
the price all the way to the target, or (exact input) consumes the whole
remaining amount as `amountIn + feeAmount`, or (exact output) produces
the whole remaining output target. -/
theorem computeSwapStep_progress (p pt L rem fee : ℚ) :
    (computeSwapStep p pt L rem fee).sqrtPriceNext = pt ∨
      ((0 < rem →
          (computeSwapStep p pt L rem fee).amountIn +
            (computeSwapStep p pt L rem fee).feeAmount = rem) ∧
        (rem ≤ 0 → (computeSwapStep p pt L rem fee).amountOut = -rem)) := by
  simp only [computeSwapStep]
  split_ifs with h1 h2 h3
  all_goals try exact Or.inl rfl
  all_goals refine Or.inr ⟨fun hr => ?_, fun hr => ?_⟩
  all_goals try (exact absurd hr (by first | exact not_le.mpr h1 | exact h1))
  all_goals try rfl
  all_goals ring

/-- Helper for the exact-input branch: if the gross input `m / (1 - fee)`
fits into the remaining amount, subtracting `amountIn + feeAmount`
cannot drive the remainder negative. -/
theorem exactInput_consumption_bound (m rem fee : ℚ) (hfee : fee < 1)
    (h : m ≤ rem * (1 - fee)) : 0 ≤ rem - (m + m * fee / (1 - fee)) := by
  have h1 : (0:ℚ) < 1 - fee := by linarith
  have key : m + m * fee / (1 - fee) = m / (1 - fee) := by
    field_simp
    ring
  rw [key, sub_nonneg, div_le_iff₀ h1]
  linarith

/-- Sign preservation of the exact-input update `rem - (amountIn +
feeAmount)`: it stays non-negative whenever `rem > 0` and `fee < 1`. -/
theorem computeSwapStep_remaining_nonneg (p pt L rem fee : ℚ)
    (hrem : 0 < rem) (hfee : fee < 1) :
    0 ≤ rem - ((computeSwapStep p pt L rem fee).amountIn +
      (computeSwapStep p pt L rem fee).feeAmount) := by
  simp only [computeSwapStep]
  split_ifs with h1 h2 h3 <;> dsimp only
  · exact exactInput_consumption_bound _ rem fee hfee h2
  · have key : rem - (rem * (1 - fee) + rem * fee) = 0 := by ring
    rw [key]
  · exact exactInput_consumption_bound _ rem fee hfee h3
  · have key : rem - (rem * (1 - fee) + rem * fee) = 0 := by ring
    rw [key]

/-- Sign preservation of the exact-output update `rem + amountOut`: it
stays non-positive whenever `rem ≤ 0`. -/
theorem computeSwapStep_remaining_nonpos (p pt L rem fee : ℚ)
    (hrem : rem ≤ 0) :
    rem + (computeSwapStep p pt L rem fee).amountOut ≤ 0 := by
  simp only [computeSwapStep]
  split_ifs <;> dsimp only <;> linarith

theorem tickToSqrtPrice_nonneg (t : ℤ) : 0 ≤ tickToSqrtPrice t := by
  unfold tickToSqrtPrice ratSqrt18
  positivity

/-- Scanning toward lower ticks never returns a tick above the current
one (the returned tick lies in the current word at or below the current
compressed position). -/
theorem nextTick_le_of_zeroForOne (bitmap : TickBitmap) (tick spacing : ℤ)
    (hsp : 0 < spacing) (p : ℚ) :
    (nextInitialisedTickWithInSameWord bitmap tick spacing true p).1 ≤ tick := by
  unfold nextInitialisedTickWithInSameWord
  dsimp only
  have hbp : (0:ℤ) ≤ tick / spacing % 256 := Int.emod_nonneg _ (by norm_num)
  have hcast : ((Int.toNat (tick / spacing % 256) : ℤ)) = tick / spacing % 256 :=
    Int.toNat_of_nonneg hbp
  have hsplit : 256 * (tick / spacing / 256) + tick / spacing % 256 = tick / spacing :=
    Int.ediv_add_emod _ _
  have hfinal : tick / spacing * spacing ≤ tick := Int.ediv_mul_le tick hsp.ne'
  rw [if_pos rfl]
  split
  · rename_i b hb
    have hmem := List.mem_of_find?_eq_some hb
    rw [List.mem_reverse] at hmem
    have hlt := List.mem_range.mp hmem
    have h1 : tick / spacing / 256 * 256 + (b : ℤ) ≤ tick / spacing := by
      omega
    calc (tick / spacing / 256 * 256 + (b : ℤ)) * spacing
        ≤ tick / spacing * spacing := mul_le_mul_of_nonneg_right h1 (le_of_lt hsp)
      _ ≤ tick := hfinal
  · have h1 : tick / spacing / 256 * 256 ≤ tick / spacing := by omega
    calc tick / spacing / 256 * 256 * spacing
        ≤ tick / spacing * spacing := mul_le_mul_of_nonneg_right h1 (le_of_lt hsp)
      _ ≤ tick := hfinal

/-- Scanning toward higher ticks always returns a tick strictly above the
current one (the scan starts at the next compressed tick). -/
theorem lt_nextTick_of_oneForZero (bitmap : TickBitmap) (tick spacing : ℤ)
    (hsp : 0 < spacing) (p : ℚ) :
    tick < (nextInitialisedTickWithInSameWord bitmap tick spacing false p).1 := by
  unfold nextInitialisedTickWithInSameWord
  rw [if_neg (by decide)]
  dsimp only
  have hbp : (0:ℤ) ≤ (tick / spacing + 1) % 256 := Int.emod_nonneg _ (by norm_num)
  have hbp2 : (tick / spacing + 1) % 256 < 256 := Int.emod_lt_of_pos _ (by norm_num)
  have hcast : ((Int.toNat ((tick / spacing + 1) % 256) : ℤ)) = (tick / spacing + 1) % 256 :=
    Int.toNat_of_nonneg hbp
  have hsplit : 256 * ((tick / spacing + 1) / 256) + (tick / spacing + 1) % 256
      = tick / spacing + 1 := Int.ediv_add_emod _ _
  have hfinal : tick < (tick / spacing + 1) * spacing :=
    Int.lt_ediv_add_one_mul_self tick hsp
  split
  · rename_i b hb
    have hmem := List.mem_of_find?_eq_some hb
    obtain ⟨i, _, hib⟩ := List.mem_map.mp hmem
    have h1 : tick / spacing + 1 ≤ (tick / spacing + 1) / 256 * 256 + (b : ℤ) := by
      omega
    calc tick < (tick / spacing + 1) * spacing := hfinal
      _ ≤ ((tick / spacing + 1) / 256 * 256 + (b : ℤ)) * spacing :=
          mul_le_mul_of_nonneg_right h1 (le_of_lt hsp)
  · have h1 : tick / spacing + 1 ≤ (tick / spacing + 1) / 256 * 256 + 255 := by omega
    calc tick < (tick / spacing + 1) * spacing := hfinal
      _ ≤ ((tick / spacing + 1) / 256 * 256 + 255) * spacing :=
          mul_le_mul_of_nonneg_right h1 (le_of_lt hsp)

/-- The crossing tail never touches the swap state's price, remaining
amount, fee growth or protocol fee: those were fixed earlier in the body. -/
theorem stepCross_ok_common (pool : Pool) (zeroForOne : Bool) (next : ℤ × Bool)
    (spn pstart : ℚ) (s2 s3 : SwapState) (store store3 : TickStore)
    (hok : stepCross pool zeroForOne next spn pstart s2 store = .ok (s3, store3)) :
    s3.protocolFee = s2.protocolFee ∧ s3.feeGrowthGlobalX = s2.feeGrowthGlobalX ∧
      s3.sqrtPrice = s2.sqrtPrice ∧
      s3.amountSpecifiedRemaining = s2.amountSpecifiedRemaining := by
  unfold stepCross at hok
  split at hok
  all_goals try (split at hok)
  all_goals try (split at hok)
  all_goals try (dsimp only at hok)
  all_goals cases hok
  all_goals simp

/-- A successful loop-body iteration produces exactly the protocol fee,
fee growth, price and remaining-amount updates prescribed by lines
93-128 of the source. -/
theorem swapStepOnce_ok_common (pool : Pool) (limit : ℚ)
    (exactInput zeroForOne : Bool) (s s2 : SwapState) (store store2 : TickStore)
    (hok : swapStepOnce pool limit exactInput zeroForOne s store = .ok (s2, store2)) :
    s2.protocolFee = (applyProtocolFee pool.protocolFees
        (stepCompute pool limit zeroForOne s).feeAmount s.protocolFee).2 ∧
      s2.feeGrowthGlobalX = applyFeeGrowth s.liquidity
        (applyProtocolFee pool.protocolFees
          (stepCompute pool limit zeroForOne s).feeAmount s.protocolFee).1
        s.feeGrowthGlobalX ∧
      s2.sqrtPrice = (stepCompute pool limit zeroForOne s).sqrtPriceNext ∧
      s2.amountSpecifiedRemaining = (if exactInput then
          s.amountSpecifiedRemaining -
            ((stepCompute pool limit zeroForOne s).amountIn +
              (stepCompute pool limit zeroForOne s).feeAmount)
        else s.amountSpecifiedRemaining +
          (stepCompute pool limit zeroForOne s).amountOut) := by
  unfold swapStepOnce at hok
  dsimp only at hok
  split at hok
  · exact absurd hok (by simp)
  · have h := stepCross_ok_common _ _ _ _ _ _ _ _ _ hok
    cases exactInput <;>
      simp only [stepAccrue, stepUpdateAmounts, applyProtocolFee, applyFeeGrowth,
        Bool.false_eq_true, if_false, eq_self_iff_true, if_true] at h ⊢ <;>
      exact h

/-- C2: whenever the swap loop is still running (remaining amount nonzero
under `f18`, price not at the limit) and the bitmap scan returns a next
tick outside `[MIN_TICK, MAX_TICK]`, `processSwapSteps` aborts with
`ConflictError "Not enough liquidity available in pool"` and the
transaction commits no tick-store write. -/
theorem swap_aborts_on_out_of_bounds_next_tick (fuel : ℕ) (pool : Pool) (limit : ℚ)
    (exactInput zeroForOne : Bool) (s : SwapState) (store : TickStore)
    (hrem : ¬ f18 s.amountSpecifiedRemaining = 0) (hp : s.sqrtPrice ≠ limit)
    (hoob : (stepNext pool zeroForOne s).1 < MIN_TICK ∨
      MAX_TICK < (stepNext pool zeroForOne s).1) :
    processSwapSteps (fuel + 1) pool limit exactInput zeroForOne s store =
        some (.error (.conflictError ("Not enough liquidity available in pool"))) ∧
      swapCommitted (fuel + 1) pool limit exactInput zeroForOne s store = store := by
  have hguard : ¬ (f18 s.amountSpecifiedRemaining = 0 ∨ s.sqrtPrice = limit) := by
    push_neg
    exact ⟨hrem, hp⟩
  have hstep : swapStepOnce pool limit exactInput zeroForOne s store =
      .error (.conflictError ("Not enough liquidity available in pool")) := by
    unfold swapStepOnce
    dsimp only
    rw [if_pos hoob]
  constructor
  · unfold processSwapSteps
    rw [if_neg hguard, hstep]
  · unfold swapCommitted processSwapSteps
    rw [if_neg hguard, hstep]

/-- Witness for C2: from the lowest permitted tick, a zero-for-one scan
leaves the tick range and the swap aborts without touching the store. -/
theorem swap_aborts_on_out_of_bounds_next_tick_witness :
    processSwapSteps 1 poolA (1 / 2) true true ⟨1, MIN_TICK, 100, 100, 0, 0, 0⟩ [] =
        some (.error (.conflictError ("Not enough liquidity available in pool"))) ∧
      swapCommitted 1 poolA (1 / 2) true true ⟨1, MIN_TICK, 100, 100, 0, 0, 0⟩ [] = [] :=
  swap_aborts_on_out_of_bounds_next_tick 0 poolA (1 / 2) true true
    ⟨1, MIN_TICK, 100, 100, 0, 0, 0⟩ [] (by norm_num [f18]) (by norm_num) (by decide)

/-- The fixed-point sqrt price of tick 0 is exactly 1. -/
theorem tickToSqrtPrice_zero : tickToSqrtPrice 0 = 1 := by
  unfold tickToSqrtPrice ratSqrt18
  norm_num
  rw [show Int.toNat 1000000000000000000000000000000000000 =
    1000000000000000000000000000000000000 from rfl]
  norm_num

theorem stepNext_eval : stepNext poolC true stateC = (0, true) := by decide

theorem stepSqrtPriceNext_eval : stepSqrtPriceNext poolC true stateC = 1 := by
  unfold stepSqrtPriceNext
  rw [stepNext_eval]
  exact tickToSqrtPrice_zero

theorem stepCompute_eval :
    stepCompute poolC (1 / 2) true stateC = ⟨1, 50, 100, 150 / 997⟩ := by
  unfold stepCompute stepTarget
  rw [stepSqrtPriceNext_eval]
  norm_num [stateC, poolC, computeSwapStep]

theorem swapStepOnce_eval :
    swapStepOnce poolC (1 / 2) false true stateC storeC =
      .ok (⟨1, -1, 97, 0, 50000 / 997, 9 / 7976, 75 / 1994⟩,
        [(0, ⟨3, -87727 / 7976, -6⟩)]) := by
  unfold swapStepOnce
  rw [stepNext_eval, stepSqrtPriceNext_eval, stepCompute_eval]
  norm_num [stepCross, stepAccrue, stepUpdateAmounts, applyProtocolFee, applyFeeGrowth,
    fetchOrCreateAndCrossTick, lookupTick, updateTick, MIN_TICK, MAX_TICK, stateC, poolC,
    storeC]

/-- C5: in each loop-body iteration with protocol fees enabled, exactly
`delta = feeAmount * protocolFees` moves from the step's fee amount into
`state.protocolFee` before the remainder is applied to fee growth; in
particular a step fee amount of 100 at `protocolFees = 0.25` adds 25 to
the protocol-fee accumulator and accrues `75 / liquidity` of fee growth. -/
theorem protocolFee_diversion (pool : Pool) (limit : ℚ)
    (exactInput zeroForOne : Bool) (s s2 : SwapState) (store store2 : TickStore)
    (hpf : 0 < pool.protocolFees)
    (hok : swapStepOnce pool limit exactInput zeroForOne s store = .ok (s2, store2)) :
    (s2.protocolFee = s.protocolFee +
        (stepCompute pool limit zeroForOne s).feeAmount * pool.protocolFees ∧
      s2.feeGrowthGlobalX = applyFeeGrowth s.liquidity
        ((stepCompute pool limit zeroForOne s).feeAmount * (1 - pool.protocolFees))
        s.feeGrowthGlobalX) ∧
    (∀ protFee fg L : ℚ, 0 < L →
      applyProtocolFee (1 / 4) 100 protFee = (75, protFee + 25) ∧
      applyFeeGrowth L 75 fg = fg + 75 / L) := by
  obtain ⟨h1, h2, h3, h4⟩ := swapStepOnce_ok_common _ _ _ _ _ _ _ _ hok
  refine ⟨⟨?_, ?_⟩, ?_⟩
  · rw [h1]
    unfold applyProtocolFee
    rw [if_pos hpf]
  · rw [h2]
    unfold applyProtocolFee
    rw [if_pos hpf]
    congr 1
    ring
  · intro protFee fg L hL
    constructor
    · unfold applyProtocolFee
      rw [if_pos (by norm_num : (0:ℚ) < 1 / 4)]
      norm_num
    · unfold applyFeeGrowth
      rw [if_pos hL]

/-- Witness for C5: the concrete crossing step on `poolC` diverts a
quarter of the step fee into the protocol-fee accumulator, and the 25/75
split of a fee amount of 100 behaves as claimed. -/
theorem protocolFee_diversion_witness :
    ((SwapState.mk 1 (-1) 97 0 (50000 / 997) (9 / 7976) (75 / 1994)).protocolFee =
        stateC.protocolFee +
          (stepCompute poolC (1 / 2) true stateC).feeAmount * poolC.protocolFees ∧
      (SwapState.mk 1 (-1) 97 0 (50000 / 997) (9 / 7976) (75 / 1994)).feeGrowthGlobalX =
        applyFeeGrowth stateC.liquidity
          ((stepCompute poolC (1 / 2) true stateC).feeAmount *
            (1 - poolC.protocolFees)) stateC.feeGrowthGlobalX) ∧
    (∀ protFee fg L : ℚ, 0 < L →
      applyProtocolFee (1 / 4) 100 protFee = (75, protFee + 25) ∧
      applyFeeGrowth L 75 fg = fg + 75 / L) :=
  protocolFee_diversion poolC (1 / 2) false true stateC
    ⟨1, -1, 97, 0, 50000 / 997, 9 / 7976, 75 / 1994⟩ storeC
    [(0, ⟨3, -87727 / 7976, -6⟩)] (by norm_num [poolC]) swapStepOnce_eval

/-- Crossing an initialised tick: the stored record's fee-growth-outside
pair is flipped against the supplied globals, `liquidityNet` is added
(negated when `zeroForOne`) and the tick pointer moves. -/
theorem stepCross_initialised (pool : Pool) (zeroForOne : Bool) (next : ℤ × Bool)
    (spn pstart : ℚ) (s2 s3 : SwapState) (store store3 : TickStore) (td : TickDataRec)
    (hprice : s2.sqrtPrice = spn) (hinit : next.2 = true)
    (hlook : lookupTick store next.1 = some td)
    (hok : stepCross pool zeroForOne next spn pstart s2 store = .ok (s3, store3)) :
    store3 = updateTick store next.1
        (TickDataRec.mk td.liquidityNet
          ((if zeroForOne then s2.feeGrowthGlobalX else pool.feeGrowthGlobal0) -
            td.feeGrowthOutside0)
          ((if zeroForOne then pool.feeGrowthGlobal1 else s2.feeGrowthGlobalX) -
            td.feeGrowthOutside1)) ∧
      s3.liquidity = s2.liquidity +
        (if zeroForOne then -td.liquidityNet else td.liquidityNet) ∧
      s3.tick = (if zeroForOne then next.1 - 1 else next.1) := by
  unfold stepCross at hok
  rw [if_pos hprice, hinit, if_pos rfl] at hok
  unfold fetchOrCreateAndCrossTick at hok
  rw [hlook] at hok
  dsimp only at hok
  cases hok
  simp

/-- Reaching an uninitialised tick: no store write, no liquidity change,
but the tick pointer moves the same way. -/
theorem stepCross_uninitialised (pool : Pool) (zeroForOne : Bool) (next : ℤ × Bool)
    (spn pstart : ℚ) (s2 s3 : SwapState) (store store3 : TickStore)
    (hprice : s2.sqrtPrice = spn) (hinit : next.2 = false)
    (hok : stepCross pool zeroForOne next spn pstart s2 store = .ok (s3, store3)) :
    s3.tick = (if zeroForOne then next.1 - 1 else next.1) ∧
      s3.liquidity = s2.liquidity ∧ store3 = store := by
  unfold stepCross at hok
  rw [if_pos hprice, hinit, if_neg (by decide)] at hok
  cases hok
  simp

/-- C6: when the post-step price equals the next tick's sqrt price, an
initialised tick is crossed with the fee-growth pair
`(state.feeGrowthGlobalX, pool.feeGrowthGlobal1)` for `zeroForOne` and
`(pool.feeGrowthGlobal0, state.feeGrowthGlobalX)` otherwise, the returned
`liquidityNet` is negated exactly when `zeroForOne` before being added to
the liquidity, and the tick pointer moves to `tickNext - 1` resp.
`tickNext`; an uninitialised reached tick moves the pointer the same way
without a store write. -/
theorem tick_crossing (pool : Pool) (limit : ℚ) (exactInput zeroForOne : Bool)
    (s s2 : SwapState) (store store2 : TickStore) (td : TickDataRec)
    (hok : swapStepOnce pool limit exactInput zeroForOne s store = .ok (s2, store2))
    (hreach : (stepCompute pool limit zeroForOne s).sqrtPriceNext =
      stepSqrtPriceNext pool zeroForOne s) :
    ((stepNext pool zeroForOne s).2 = true →
      lookupTick store (stepNext pool zeroForOne s).1 = some td →
      store2 = updateTick store (stepNext pool zeroForOne s).1
          (TickDataRec.mk td.liquidityNet
            ((if zeroForOne then s2.feeGrowthGlobalX else pool.feeGrowthGlobal0) -
              td.feeGrowthOutside0)
            ((if zeroForOne then pool.feeGrowthGlobal1 else s2.feeGrowthGlobalX) -
              td.feeGrowthOutside1)) ∧
        s2.liquidity = s.liquidity +
          (if zeroForOne then -td.liquidityNet else td.liquidityNet) ∧
        s2.tick = (if zeroForOne then (stepNext pool zeroForOne s).1 - 1
          else (stepNext pool zeroForOne s).1)) ∧
    ((stepNext pool zeroForOne s).2 = false →
      s2.tick = (if zeroForOne then (stepNext pool zeroForOne s).1 - 1
        else (stepNext pool zeroForOne s).1) ∧
      s2.liquidity = s.liquidity ∧ store2 = store) := by
  unfold swapStepOnce at hok
  dsimp only at hok
  split at hok
  · exact absurd hok (by simp)
  · have hcommon := stepCross_ok_common _ _ _ _ _ _ _ _ _ hok
    have hliq : (stepAccrue pool.protocolFees
        (stepCompute pool limit zeroForOne s).feeAmount
        (stepUpdateAmounts exactInput (stepCompute pool limit zeroForOne s) s)).liquidity
        = s.liquidity := by
      cases exactInput <;> simp [stepAccrue, stepUpdateAmounts]
    have hprice : (stepAccrue pool.protocolFees
        (stepCompute pool limit zeroForOne s).feeAmount
        (stepUpdateAmounts exactInput (stepCompute pool limit zeroForOne s) s)).sqrtPrice
        = stepSqrtPriceNext pool zeroForOne s := by
      cases exactInput <;> simp [stepAccrue, stepUpdateAmounts, hreach]
    constructor
    · intro hinit hlook
      obtain ⟨hst, hl, ht⟩ :=
        stepCross_initialised _ _ _ _ _ _ _ _ _ _ hprice hinit hlook hok
      refine ⟨?_, ?_, ht⟩
      · rw [hst, hcommon.2.1]
      · rw [hl, hliq]
    · intro hinit
      obtain ⟨ht, hl, hst⟩ :=
        stepCross_uninitialised _ _ _ _ _ _ _ _ _ hprice hinit hok
      exact ⟨ht, by rw [hl, hliq], hst⟩

/-- Witness for C6: the concrete exact-output step on `poolC` crosses the
initialised tick 0, flipping the stored fee-growth-outside values against
`(state.feeGrowthGlobalX, pool.feeGrowthGlobal1)`, negating the record's
`liquidityNet = 3`, and moving the tick pointer to `-1`. -/
theorem tick_crossing_witness :
    ((stepNext poolC true stateC).2 = true →
      lookupTick storeC (stepNext poolC true stateC).1 = some tdC →
      storeC2 = updateTick storeC (stepNext poolC true stateC).1
          (TickDataRec.mk tdC.liquidityNet
            ((if (true : Bool) then stateC2.feeGrowthGlobalX
              else poolC.feeGrowthGlobal0) - tdC.feeGrowthOutside0)
            ((if (true : Bool) then poolC.feeGrowthGlobal1
              else stateC2.feeGrowthGlobalX) - tdC.feeGrowthOutside1)) ∧
        stateC2.liquidity = stateC.liquidity +
          (if (true : Bool) then -tdC.liquidityNet else tdC.liquidityNet) ∧
        stateC2.tick = (if (true : Bool) then (stepNext poolC true stateC).1 - 1
          else (stepNext poolC true stateC).1)) ∧
    ((stepNext poolC true stateC).2 = false →
      stateC2.tick = (if (true : Bool) then (stepNext poolC true stateC).1 - 1
        else (stepNext poolC true stateC).1) ∧
      stateC2.liquidity = stateC.liquidity ∧ storeC2 = storeC) :=
  tick_crossing poolC (1 / 2) false true stateC stateC2 storeC storeC2 tdC
    swapStepOnce_eval (by rw [stepCompute_eval, stepSqrtPriceNext_eval])

/-- Bounds for the downward exact-output branch: with a positive room to
the target, the new price stays above the target and the corresponding
input delta is non-negative. -/
theorem exactOutput_price_down_bounds (p pt L a : ℚ) (hpt : 0 ≤ pt) (hL : 0 ≤ L)
    (ha : 0 ≤ a) (hlt : a < L * (p - pt)) :
    0 ≤ p - a / L ∧ 0 ≤ L * (p - (p - a / L)) / (p * (p - a / L)) := by
  have hprod : 0 < L * (p - pt) := lt_of_le_of_lt ha hlt
  have hLpos : 0 < L := by
    rcases hL.lt_or_eq with h | h
    · exact h
    · rw [← h] at hlt
      simp at hlt
      linarith
  have hppt : 0 < p - pt := by
    by_contra h
    push_neg at h
    have : L * (p - pt) ≤ 0 := mul_nonpos_iff.mpr (Or.inl ⟨hL, h⟩)
    linarith
  have hlt2 : a < (p - pt) * L := by
    rw [mul_comm (p - pt) L]
    exact hlt
  have hdiv : a / L < p - pt := (div_lt_iff₀ hLpos).mpr hlt2
  have hdnn : 0 ≤ a / L := div_nonneg ha hLpos.le
  constructor
  · linarith
  · have h1 : p - (p - a / L) = a / L := by ring
    rw [h1]
    have hp2 : 0 ≤ p * (p - a / L) := mul_nonneg (by linarith) (by linarith)
    exact div_nonneg (mul_nonneg hL hdnn) hp2

/-- Bounds for the upward exact-output branch: the price formula stays
non-negative and the input delta is non-negative. -/
theorem exactOutput_price_up_bounds (p pt L a : ℚ) (hp : 0 ≤ p) (hpt : 0 ≤ pt)
    (hL : 0 ≤ L) (ha : 0 ≤ a) (hlt : a < L * (pt - p) / (p * pt)) :
    0 ≤ L * p / (L - a * p) ∧ 0 ≤ L * (L * p / (L - a * p) - p) := by
  have h1 : 0 < L * (pt - p) / (p * pt) := lt_of_le_of_lt ha hlt
  have h2 : 0 < p * pt := by
    rcases (mul_nonneg hp hpt).lt_or_eq with h | h
    · exact h
    · rw [← h] at h1
      simp at h1
  have hppos : 0 < p := by
    rcases mul_pos_iff.mp h2 with ⟨h, _⟩ | ⟨h, _⟩
    · exact h
    · linarith
  have hptpos : 0 < pt := by
    rcases mul_pos_iff.mp h2 with ⟨_, h⟩ | ⟨_, h⟩
    · exact h
    · linarith
  have hnum : 0 < L * (pt - p) := by
    rcases div_pos_iff.mp h1 with ⟨h, _⟩ | ⟨_, h⟩
    · exact h
    · linarith
  have hLpos : 0 < L := by
    rcases mul_pos_iff.mp hnum with ⟨h, _⟩ | ⟨h, _⟩
    · exact h
    · linarith
  have hmul : a * (p * pt) < L * (pt - p) := (lt_div_iff₀ h2).mp hlt
  have hkey : a * p < L := by
    nlinarith [mul_nonneg hL hp, hptpos, hmul]
  have hden : 0 < L - a * p := by linarith
  constructor
  · exact div_nonneg (mul_nonneg hL hp) hden.le
  · have h3 : L * p / (L - a * p) - p = a * p ^ 2 / (L - a * p) := by
      field_simp
      ring
    rw [h3]
    exact mul_nonneg hL (div_nonneg (by positivity) hden.le)

/-- With non-negative prices, liquidity and fee rate below one, each swap
step returns a non-negative next price and a non-negative fee amount. -/
theorem computeSwapStep_nonneg (p pt L rem fee : ℚ)
    (hp : 0 ≤ p) (hpt : 0 ≤ pt) (hL : 0 ≤ L) (hf0 : 0 ≤ fee) (hf1 : fee < 1) :
    0 ≤ (computeSwapStep p pt L rem fee).sqrtPriceNext ∧
      0 ≤ (computeSwapStep p pt L rem fee).feeAmount := by
  have hfe : (0:ℚ) < 1 - fee := by linarith
  by_cases hrem : 0 < rem <;> by_cases hzf : pt < p <;>
    simp only [computeSwapStep, hrem, hzf, if_true, if_false] <;>
    split_ifs with hc <;>
    refine ⟨?_, ?_⟩ <;> dsimp only
  · exact hpt
  · exact div_nonneg
      (mul_nonneg (div_nonneg (mul_nonneg hL (by linarith)) (mul_nonneg hp hpt)) hf0)
      hfe.le
  · exact div_nonneg (mul_nonneg hL hp)
      (add_nonneg hL (mul_nonneg (mul_nonneg hrem.le hfe.le) hp))
  · exact mul_nonneg hrem.le hf0
  · exact hpt
  · exact div_nonneg (mul_nonneg (mul_nonneg hL (by linarith)) hf0) hfe.le
  · exact add_nonneg hp (div_nonneg (mul_nonneg hrem.le hfe.le) hL)
  · exact mul_nonneg hrem.le hf0
  · exact hpt
  · exact div_nonneg
      (mul_nonneg (div_nonneg (mul_nonneg hL (by linarith)) (mul_nonneg hp hpt)) hf0)
      hfe.le
  · exact (exactOutput_price_down_bounds p pt L (-rem) hpt hL
      (by push_neg at hrem; linarith) (by push_neg at hc; linarith)).1
  · exact div_nonneg
      (mul_nonneg (exactOutput_price_down_bounds p pt L (-rem) hpt hL
        (by push_neg at hrem; linarith) (by push_neg at hc; linarith)).2 hf0)
      hfe.le
  · exact hpt
  · exact div_nonneg (mul_nonneg (mul_nonneg hL (by linarith)) hf0) hfe.le
  · exact (exactOutput_price_up_bounds p pt L (-rem) hp hpt hL
      (by push_neg at hrem; linarith) (by push_neg at hc; linarith)).1
  · exact div_nonneg
      (mul_nonneg (exactOutput_price_up_bounds p pt L (-rem) hp hpt hL
        (by push_neg at hrem; linarith) (by push_neg at hc; linarith)).2 hf0)
      hfe.le

/-- Whenever the step price lands exactly on `step.sqrtPriceNext`, the
crossing tail moves the tick pointer to `tickNext - 1` or `tickNext`. -/
theorem stepCross_reached_tick (pool : Pool) (zeroForOne : Bool) (next : ℤ × Bool)
    (spn pstart : ℚ) (s2 s3 : SwapState) (store store3 : TickStore)
    (hprice : s2.sqrtPrice = spn)
    (hok : stepCross pool zeroForOne next spn pstart s2 store = .ok (s3, store3)) :
    s3.tick = if zeroForOne then next.1 - 1 else next.1 := by
  unfold stepCross at hok
  rw [if_pos hprice] at hok
  split at hok
  all_goals try (split at hok)
  all_goals try (dsimp only at hok)
  all_goals cases hok
  all_goals simp_all

/-- Each successful loop-body iteration preserves the exact-input /
exact-output sign convention on the remaining amount and either strictly
shrinks the tick measure (it reached the next tick) or makes the loop
guard false (the remaining amount is exhausted or the price sits at the
limit). -/
theorem swapStepOnce_progress (pool : Pool) (limit : ℚ) (exactInput zeroForOne : Bool)
    (s s2 : SwapState) (store store2 : TickStore)
    (hsp : 0 < pool.tickSpacing) (hfee : pool.fee < 1)
    (hrem : s.amountSpecifiedRemaining ≠ 0)
    (hsign : if exactInput then 0 ≤ s.amountSpecifiedRemaining
      else s.amountSpecifiedRemaining ≤ 0)
    (hok : swapStepOnce pool limit exactInput zeroForOne s store = .ok (s2, store2)) :
    (if exactInput then 0 ≤ s2.amountSpecifiedRemaining
      else s2.amountSpecifiedRemaining ≤ 0) ∧
    (swapMeasure zeroForOne s2 < swapMeasure zeroForOne s ∨
      f18 s2.amountSpecifiedRemaining = 0 ∨ s2.sqrtPrice = limit) := by
  obtain ⟨hpf, hfg, hsq, hremEq⟩ := swapStepOnce_ok_common _ _ _ _ _ _ _ _ hok
  constructor
  · cases hE : exactInput
    · rw [hE] at hsign hremEq
      simp only [Bool.false_eq_true, if_false] at hsign hremEq ⊢
      rw [hremEq]
      exact computeSwapStep_remaining_nonpos _ _ _ _ _ hsign
    · rw [hE] at hsign hremEq
      simp only [if_true] at hsign hremEq ⊢
      rw [hremEq]
      exact computeSwapStep_remaining_nonneg _ _ _ _ _
        (lt_of_le_of_ne hsign (Ne.symm hrem)) hfee
  · by_cases hreach : s2.sqrtPrice = stepSqrtPriceNext pool zeroForOne s
    · left
      unfold swapStepOnce at hok
      dsimp only at hok
      split at hok
      · exact absurd hok (by simp)
      · rename_i hnoob
        push_neg at hnoob
        have hprice : (stepAccrue pool.protocolFees
            (stepCompute pool limit zeroForOne s).feeAmount
            (stepUpdateAmounts exactInput (stepCompute pool limit zeroForOne s)
              s)).sqrtPrice = stepSqrtPriceNext pool zeroForOne s := by
          have : (stepAccrue pool.protocolFees
              (stepCompute pool limit zeroForOne s).feeAmount
              (stepUpdateAmounts exactInput (stepCompute pool limit zeroForOne s)
                s)).sqrtPrice = (stepCompute pool limit zeroForOne s).sqrtPriceNext := by
            cases exactInput <;> simp [stepAccrue, stepUpdateAmounts]
          rw [this, ← hsq]
          exact hreach
        have htick := stepCross_reached_tick _ _ _ _ _ _ _ _ _ hprice hok
        have hdir : (if zeroForOne then
            (stepNext pool zeroForOne s).1 ≤ s.tick
          else s.tick < (stepNext pool zeroForOne s).1) := by
          cases zeroForOne
          · simp only [Bool.false_eq_true, if_false]
            exact lt_nextTick_of_oneForZero pool.bitmap s.tick pool.tickSpacing hsp
              s.sqrtPrice
          · simp only [if_true]
            exact nextTick_le_of_zeroForOne pool.bitmap s.tick pool.tickSpacing hsp
              s.sqrtPrice
        unfold swapMeasure
        cases zeroForOne <;>
          simp only [Bool.false_eq_true, if_false, if_true] at htick hdir hnoob ⊢ <;>
          omega
    · right
      rcases computeSwapStep_progress s.sqrtPrice (stepTarget pool limit zeroForOne s)
          s.liquidity s.amountSpecifiedRemaining pool.fee with htgt | ⟨hin, hout⟩
      · have hs2 : s2.sqrtPrice = stepTarget pool limit zeroForOne s := by
          rw [hsq]
          exact htgt
        unfold stepTarget at hs2
        cases zeroForOne <;>
          simp only [Bool.false_eq_true, if_false, if_true] at hs2 hreach <;>
          split at hs2 <;>
          first
            | exact Or.inr hs2
            | exact absurd hs2 hreach
      · left
        cases hE : exactInput
        · rw [hE] at hremEq hsign
          simp only [Bool.false_eq_true, if_false] at hremEq hsign
          rw [hremEq]
          unfold stepCompute
          rw [hout hsign]
          simp [f18_zero]
        · rw [hE] at hremEq hsign
          simp only [if_true] at hremEq hsign
          rw [hremEq]
          unfold stepCompute
          rw [hin (lt_of_le_of_ne hsign (Ne.symm hrem))]
          simp [f18_zero]

/-- Fuel induction for termination: with fuel exceeding the tick measure
by two, the loop always returns (normally or with an error). -/
theorem processSwapSteps_terminates_aux (pool : Pool) (limit : ℚ)
    (exactInput zeroForOne : Bool) (hsp : 0 < pool.tickSpacing)
    (hfee : pool.fee < 1) :
    ∀ fuel (s : SwapState) (store : TickStore),
      (if exactInput then 0 ≤ s.amountSpecifiedRemaining
        else s.amountSpecifiedRemaining ≤ 0) →
      swapMeasure zeroForOne s + 2 ≤ fuel →
      (processSwapSteps fuel pool limit exactInput zeroForOne s store).isSome := by
  intro fuel
  induction fuel with
  | zero => intro s store _ hm; omega
  | succ n ih =>
    intro s store hsign hm
    rw [processSwapSteps]
    by_cases hguard : (f18 s.amountSpecifiedRemaining = 0 ∨ s.sqrtPrice = limit)
    · rw [if_pos hguard]
      simp
    · rw [if_neg hguard]
      push_neg at hguard
      obtain ⟨hf18, hpl⟩ := hguard
      have hrem : s.amountSpecifiedRemaining ≠ 0 := ne_zero_of_f18_ne_zero hf18
      cases hstep : swapStepOnce pool limit exactInput zeroForOne s store with
      | error e => simp
      | ok pr =>
        obtain ⟨s2, store2⟩ := pr
        dsimp only
        obtain ⟨hsign2, hprog⟩ := swapStepOnce_progress pool limit exactInput zeroForOne
          s s2 store store2 hsp hfee hrem hsign hstep
        rcases hprog with hlt | hdone
        · exact ih s2 store2 hsign2 (by omega)
        · have hn : ∃ m, n = m + 1 := ⟨n - 1, by omega⟩
          obtain ⟨m, rfl⟩ := hn
          rw [processSwapSteps]
          rw [if_pos hdone]
          simp

/-- C1: under the data-model invariants (positive tick spacing, fee tier
below one, and the sign convention tying `exactInput` to the sign of the
remaining amount), `processSwapSteps` terminates: some finite fuel makes
the loop return, normally or with an error. -/
theorem processSwapSteps_terminates (pool : Pool) (limit : ℚ)
    (exactInput zeroForOne : Bool) (s : SwapState) (store : TickStore)
    (hsp : 0 < pool.tickSpacing) (hfee : pool.fee < 1)
    (hsign : if exactInput then 0 ≤ s.amountSpecifiedRemaining
      else s.amountSpecifiedRemaining ≤ 0) :
    ∃ n, (processSwapSteps n pool limit exactInput zeroForOne s store).isSome :=
  ⟨swapMeasure zeroForOne s + 2,
    processSwapSteps_terminates_aux pool limit exactInput zeroForOne hsp hfee
      (swapMeasure zeroForOne s + 2) s store hsign le_rfl⟩

/-- Witness for C1: the loop terminates on the concrete pool and state of
the crossing scenario. -/
theorem processSwapSteps_terminates_witness :
    ∃ n, (processSwapSteps n poolC (1 / 2) false true stateC storeC).isSome :=
  processSwapSteps_terminates poolC (1 / 2) false true stateC storeC
    (by norm_num [poolC]) (by norm_num [poolC]) (by norm_num [stateC])

/-- The step's next price is non-negative whenever the current and target
prices are, regardless of the sign of liquidity (when liquidity is not
positive the step always lands on the target). -/
theorem computeSwapStep_price_nonneg (p pt L rem fee : ℚ)
    (hp : 0 ≤ p) (hpt : 0 ≤ pt) (hf1 : fee < 1) :
    0 ≤ (computeSwapStep p pt L rem fee).sqrtPriceNext := by
  have hfe : (0:ℚ) < 1 - fee := by linarith
  by_cases hrem : 0 < rem <;> by_cases hzf : pt < p <;>
    simp only [computeSwapStep, hrem, hzf, if_true, if_false] <;>
    split_ifs with hc <;> dsimp only
  · exact hpt
  · have havail : 0 < rem * (1 - fee) := mul_pos hrem hfe
    have hmaxIn : 0 < L * (p - pt) / (p * pt) := by
      push_neg at hc
      linarith
    have hnum : 0 < L * (p - pt) := by
      rcases div_pos_iff.mp hmaxIn with ⟨h, _⟩ | ⟨_, h⟩
      · exact h
      · nlinarith [mul_nonneg hp hpt]
    have hLpos : 0 < L := by
      rcases mul_pos_iff.mp hnum with ⟨h, _⟩ | ⟨_, h⟩
      · exact h
      · linarith
    exact div_nonneg (mul_nonneg hLpos.le hp)
      (add_nonneg hLpos.le (mul_nonneg havail.le hp))
  · exact hpt
  · have havail : 0 < rem * (1 - fee) := mul_pos hrem hfe
    have hnum : 0 < L * (pt - p) := by
      push_neg at hc
      linarith
    have hLpos : 0 < L := by
      rcases mul_pos_iff.mp hnum with ⟨h, _⟩ | ⟨_, h⟩
      · exact h
      · linarith
    exact add_nonneg hp (div_nonneg havail.le hLpos.le)
  · exact hpt
  · push_neg at hrem hc
    have ha : (0:ℚ) ≤ -rem := by linarith
    have hprod : 0 < L * (p - pt) := lt_of_le_of_lt ha hc
    have hLnn : 0 ≤ L := by
      rcases mul_pos_iff.mp hprod with ⟨h, _⟩ | ⟨_, h⟩
      · exact h.le
      · linarith
    exact (exactOutput_price_down_bounds p pt L (-rem) hpt hLnn ha hc).1
  · exact hpt
  · push_neg at hrem hc
    have ha : (0:ℚ) ≤ -rem := by linarith
    have hX : 0 < L * (pt - p) / (p * pt) := lt_of_le_of_lt ha hc
    have h2 : 0 < p * pt := by
      rcases (mul_nonneg hp hpt).lt_or_eq with h | h
      · exact h
      · rw [← h] at hX
        simp at hX
    have hnum : 0 < L * (pt - p) := by
      rcases div_pos_iff.mp hX with ⟨h, _⟩ | ⟨_, h⟩
      · exact h
      · linarith
    have hLnn : 0 ≤ L := by
      rcases mul_pos_iff.mp hnum with ⟨h, _⟩ | ⟨_, h⟩
      · exact h.le
      · linarith
    exact (exactOutput_price_up_bounds p pt L (-rem) hp hpt hLnn ha hc).1

/-- The diverted fee amount does not depend on the accumulator argument. -/
theorem applyProtocolFee_fst (pf f x y : ℚ) :
    (applyProtocolFee pf f x).1 = (applyProtocolFee pf f y).1 := by
  unfold applyProtocolFee
  split_ifs <;> rfl

/-- The post-diversion fee amount stays non-negative when the raw fee is
non-negative and the protocol-fee fraction is at most one. -/
theorem applyProtocolFee_fst_nonneg (pf f x : ℚ) (hf : 0 ≤ f) (hpf1 : pf ≤ 1) :
    0 ≤ (applyProtocolFee pf f x).1 := by
  unfold applyProtocolFee
  split_ifs with h
  · dsimp only
    nlinarith
  · exact hf

/-- The clamped step target is non-negative when the caller's limit is. -/
theorem stepTarget_nonneg (pool : Pool) (limit : ℚ) (zeroForOne : Bool)
    (s : SwapState) (hlimit : 0 ≤ limit) :
    0 ≤ stepTarget pool limit zeroForOne s := by
  unfold stepTarget
  split_ifs <;> first
    | exact hlimit
    | exact tickToSqrtPrice_nonneg _

/-- The per-iteration fee-growth effect: the price stays non-negative,
the new fee growth is exactly `applyFeeGrowth` of the post-diversion step
fee, and that fee is non-negative whenever the iteration's liquidity is
positive. -/
theorem swapStepOnce_feeGrowth_step (pool : Pool) (limit : ℚ)
    (exactInput zeroForOne : Bool) (s s2 : SwapState) (store store2 : TickStore)
    (hp : 0 ≤ s.sqrtPrice) (hlimit : 0 ≤ limit)
    (hf0 : 0 ≤ pool.fee) (hf1 : pool.fee < 1) (hpf1 : pool.protocolFees ≤ 1)
    (hok : swapStepOnce pool limit exactInput zeroForOne s store = .ok (s2, store2)) :
    0 ≤ s2.sqrtPrice ∧
      s2.feeGrowthGlobalX = applyFeeGrowth s.liquidity
        (stepPostFee pool limit zeroForOne s) s.feeGrowthGlobalX ∧
      (0 < s.liquidity → 0 ≤ stepPostFee pool limit zeroForOne s) := by
  obtain ⟨hpfE, hfg, hsq, hremE⟩ := swapStepOnce_ok_common _ _ _ _ _ _ _ _ hok
  refine ⟨?_, ?_, ?_⟩
  · rw [hsq]
    unfold stepCompute
    exact computeSwapStep_price_nonneg _ _ _ _ _ hp
      (stepTarget_nonneg pool limit zeroForOne s hlimit) hf1
  · rw [hfg]
    unfold stepPostFee
    rw [applyProtocolFee_fst pool.protocolFees
      (stepCompute pool limit zeroForOne s).feeAmount s.protocolFee 0]
  · intro hL
    unfold stepPostFee
    refine applyProtocolFee_fst_nonneg _ _ _ ?_ hpf1
    unfold stepCompute
    exact (computeSwapStep_nonneg _ _ _ _ _ hp
      (stepTarget_nonneg pool limit zeroForOne s hlimit) hL.le hf0 hf1).2

theorem processSwapSteps_succ_eq (fuel : ℕ) (pool : Pool) (limit : ℚ)
    (exactInput zeroForOne : Bool) (s : SwapState) (store : TickStore) :
    processSwapSteps (fuel + 1) pool limit exactInput zeroForOne s store =
      if f18 s.amountSpecifiedRemaining = 0 ∨ s.sqrtPrice = limit then
        some (.ok (s, store))
      else
        match swapStepOnce pool limit exactInput zeroForOne s store with
        | .error e => some (.error e)
        | .ok (s2, store2) =>
            processSwapSteps fuel pool limit exactInput zeroForOne s2 store2 := rfl

theorem swapTrace_succ_eq (fuel : ℕ) (pool : Pool) (limit : ℚ)
    (exactInput zeroForOne : Bool) (s : SwapState) (store : TickStore) :
    swapTrace (fuel + 1) pool limit exactInput zeroForOne s store =
      if f18 s.amountSpecifiedRemaining = 0 ∨ s.sqrtPrice = limit then []
      else
        match swapStepOnce pool limit exactInput zeroForOne s store with
        | .error _ => [s]
        | .ok (s2, store2) =>
            s :: swapTrace fuel pool limit exactInput zeroForOne s2 store2 := rfl

/-- Fuel induction behind the fee-growth monotonicity results. -/
theorem feeGrowth_monotone_aux (pool : Pool) (limit : ℚ)
    (exactInput zeroForOne : Bool) (hsp : 0 < pool.tickSpacing)
    (hf0 : 0 ≤ pool.fee) (hf1 : pool.fee < 1) (hpf1 : pool.protocolFees ≤ 1)
    (hlimit : 0 ≤ limit) :
    ∀ (fuel : ℕ) (s : SwapState) (store : TickStore) (s' : SwapState)
      (store' : TickStore),
      0 ≤ s.sqrtPrice →
      (if exactInput then 0 ≤ s.amountSpecifiedRemaining
        else s.amountSpecifiedRemaining ≤ 0) →
      processSwapSteps fuel pool limit exactInput zeroForOne s store =
        some (.ok (s', store')) →
      (s.feeGrowthGlobalX ≤ s'.feeGrowthGlobalX ∧
        ((∀ t ∈ swapTrace fuel pool limit exactInput zeroForOne s store,
            t.liquidity ≤ 0) → s'.feeGrowthGlobalX = s.feeGrowthGlobalX) ∧
        ((∃ t ∈ swapTrace fuel pool limit exactInput zeroForOne s store,
            0 < t.liquidity ∧ 0 < stepPostFee pool limit zeroForOne t) →
          s.feeGrowthGlobalX < s'.feeGrowthGlobalX)) := by
  intro fuel
  induction fuel with
  | zero =>
    intro s store s' store' _ _ hrun
    exact absurd hrun (by simp [processSwapSteps])
  | succ n ih =>
    intro s store s' store' hps hsign hrun
    rw [processSwapSteps_succ_eq] at hrun
    rw [swapTrace_succ_eq]
    by_cases hguard : (f18 s.amountSpecifiedRemaining = 0 ∨ s.sqrtPrice = limit)
    · rw [if_pos hguard] at hrun ⊢
      have h1 : s = s' ∧ store = store' := by
        have h2 := Option.some.inj hrun
        have h3 := Except.ok.inj h2
        exact ⟨congrArg Prod.fst h3, congrArg Prod.snd h3⟩
      obtain ⟨rfl, rfl⟩ : s = s' ∧ store = store' := h1
      refine ⟨le_refl _, fun _ => rfl, ?_⟩
      intro h
      simp at h
    · rw [if_neg hguard] at hrun ⊢
      push_neg at hguard
      obtain ⟨hf18, hpl⟩ := hguard
      have hrem : s.amountSpecifiedRemaining ≠ 0 := ne_zero_of_f18_ne_zero hf18
      cases hstep : swapStepOnce pool limit exactInput zeroForOne s store with
      | error e =>
        rw [hstep] at hrun
        exact absurd hrun (by simp)
      | ok pr =>
        obtain ⟨s2, store2⟩ := pr
        rw [hstep] at hrun
        dsimp only at hrun ⊢
        have hsign2 := (swapStepOnce_progress pool limit exactInput zeroForOne
          s s2 store store2 hsp hf1 hrem hsign hstep).1
        obtain ⟨hp2, hfgeq, hpost⟩ := swapStepOnce_feeGrowth_step pool limit
          exactInput zeroForOne s s2 store store2 hps hlimit hf0 hf1 hpf1 hstep
        obtain ⟨ihmono, ihunch, ihstrict⟩ := ih s2 store2 s' store' hp2 hsign2 hrun
        have hstepmono : s.feeGrowthGlobalX ≤ s2.feeGrowthGlobalX := by
          rw [hfgeq]
          unfold applyFeeGrowth
          split_ifs with hL
          · have := hpost hL
            have : 0 ≤ stepPostFee pool limit zeroForOne s / s.liquidity :=
              div_nonneg this hL.le
            linarith
          · exact le_refl _
        refine ⟨le_trans hstepmono ihmono, ?_, ?_⟩
        · intro hall
          have hhead : s.liquidity ≤ 0 := hall s (by simp)
          have htail : ∀ t ∈ swapTrace n pool limit exactInput zeroForOne s2 store2,
              t.liquidity ≤ 0 := by
            intro t ht
            exact hall t (by simp [ht])
          have h1 : s2.feeGrowthGlobalX = s.feeGrowthGlobalX := by
            rw [hfgeq]
            unfold applyFeeGrowth
            rw [if_neg (not_lt.mpr hhead)]
          rw [ihunch htail, h1]
        · intro hex
          simp only [List.mem_cons] at hex
          obtain ⟨t, ht, htl, htf⟩ := hex
          rcases ht with heq | ht
          · rw [heq] at htl htf
            have hstrict : s.feeGrowthGlobalX < s2.feeGrowthGlobalX := by
              rw [hfgeq]
              unfold applyFeeGrowth
              rw [if_pos htl]
              have hdp : 0 < stepPostFee pool limit zeroForOne s / s.liquidity :=
                div_pos htf htl
              linarith
            exact lt_of_lt_of_le hstrict ihmono
          · exact lt_of_le_of_lt hstepmono (ihstrict ⟨t, ht, htl, htf⟩)

/-- C4 (amended): under the data-model invariants, across any completed
run of `processSwapSteps` the fee-growth accumulator never decreases; it
is unchanged when no started iteration had positive liquidity; and it
strictly increases when some started iteration had positive liquidity
together with a positive post-diversion fee amount. -/
theorem feeGrowthGlobalX_monotone (pool : Pool) (limit : ℚ)
    (exactInput zeroForOne : Bool) (fuel : ℕ) (s s' : SwapState)
    (store store' : TickStore) (hsp : 0 < pool.tickSpacing)
    (hf0 : 0 ≤ pool.fee) (hf1 : pool.fee < 1) (hpf1 : pool.protocolFees ≤ 1)
    (hlimit : 0 ≤ limit) (hps : 0 ≤ s.sqrtPrice)
    (hsign : if exactInput then 0 ≤ s.amountSpecifiedRemaining
      else s.amountSpecifiedRemaining ≤ 0)
    (hrun : processSwapSteps fuel pool limit exactInput zeroForOne s store =
      some (.ok (s', store'))) :
    s.feeGrowthGlobalX ≤ s'.feeGrowthGlobalX ∧
      ((∀ t ∈ swapTrace fuel pool limit exactInput zeroForOne s store,
          t.liquidity ≤ 0) → s'.feeGrowthGlobalX = s.feeGrowthGlobalX) ∧
      ((∃ t ∈ swapTrace fuel pool limit exactInput zeroForOne s store,
          0 < t.liquidity ∧ 0 < stepPostFee pool limit zeroForOne t) →
        s.feeGrowthGlobalX < s'.feeGrowthGlobalX) :=
  feeGrowth_monotone_aux pool limit exactInput zeroForOne hsp hf0 hf1 hpf1 hlimit
    fuel s store s' store' hps hsign hrun

theorem processSwapSteps_eval :
    processSwapSteps 2 poolC (1 / 2) false true stateC storeC =
      some (.ok (stateC2, storeC2)) := by
  have hg1 : ¬ (f18 stateC.amountSpecifiedRemaining = 0 ∨
      stateC.sqrtPrice = (1 / 2 : ℚ)) := by
    push_neg
    constructor
    · norm_num [f18, stateC]
    · norm_num [stateC]
  have hstep : swapStepOnce poolC (1 / 2) false true stateC storeC =
      .ok (stateC2, storeC2) := swapStepOnce_eval
  rw [show (2:ℕ) = 1 + 1 from rfl, processSwapSteps_succ_eq, if_neg hg1, hstep]
  dsimp only
  rw [processSwapSteps_succ_eq, if_pos (Or.inl (by norm_num [f18, stateC2]))]

/-- Witness for C4: the concrete crossing run on `poolC`. -/
theorem feeGrowthGlobalX_monotone_witness :
    stateC.feeGrowthGlobalX ≤ stateC2.feeGrowthGlobalX ∧
      ((∀ t ∈ swapTrace 2 poolC (1 / 2) false true stateC storeC,
          t.liquidity ≤ 0) → stateC2.feeGrowthGlobalX = stateC.feeGrowthGlobalX) ∧
      ((∃ t ∈ swapTrace 2 poolC (1 / 2) false true stateC storeC,
          0 < t.liquidity ∧ 0 < stepPostFee poolC (1 / 2) true t) →
        stateC.feeGrowthGlobalX < stateC2.feeGrowthGlobalX) :=
  feeGrowthGlobalX_monotone poolC (1 / 2) false true 2 stateC stateC2 storeC storeC2
    (by norm_num [poolC]) (by norm_num [poolC]) (by norm_num [poolC])
    (by norm_num [poolC]) (by norm_num) (by norm_num [stateC])
    (by norm_num [stateC]) processSwapSteps_eval

theorem stepNextD_eval : stepNext poolD true stateC = (0, false) := by decide

theorem stepSqrtPriceNextD_eval : stepSqrtPriceNext poolD true stateC = 1 := by
  unfold stepSqrtPriceNext
  rw [stepNextD_eval]
  exact tickToSqrtPrice_zero

theorem stepComputeD_eval :
    stepCompute poolD (1 / 2) true stateC = ⟨1, 50, 100, 150 / 997⟩ := by
  unfold stepCompute stepTarget
  rw [stepSqrtPriceNextD_eval]
  norm_num [stateC, poolD, computeSwapStep]

theorem swapStepOnceD_eval :
    swapStepOnce poolD (1 / 2) false true stateC [] = .ok (stateD2, []) := by
  unfold swapStepOnce
  rw [stepNextD_eval, stepSqrtPriceNextD_eval, stepComputeD_eval]
  norm_num [stepCross, stepAccrue, stepUpdateAmounts, applyProtocolFee, applyFeeGrowth,
    MIN_TICK, MAX_TICK, stateC, poolD, stateD2]

theorem processSwapStepsD_eval :
    processSwapSteps 2 poolD (1 / 2) false true stateC [] =
      some (.ok (stateD2, [])) := by
  have hg1 : ¬ (f18 stateC.amountSpecifiedRemaining = 0 ∨
      stateC.sqrtPrice = (1 / 2 : ℚ)) := by
    push_neg
    constructor
    · norm_num [f18, stateC]
    · norm_num [stateC]
  rw [show (2:ℕ) = 1 + 1 from rfl, processSwapSteps_succ_eq, if_neg hg1,
    swapStepOnceD_eval]
  dsimp only
  rw [processSwapSteps_succ_eq, if_pos (Or.inl (by norm_num [f18, stateD2]))]

theorem swapTraceD_eval :
    swapTrace 2 poolD (1 / 2) false true stateC [] = [stateC] := by
  have hg1 : ¬ (f18 stateC.amountSpecifiedRemaining = 0 ∨
      stateC.sqrtPrice = (1 / 2 : ℚ)) := by
    push_neg
    constructor
    · norm_num [f18, stateC]
    · norm_num [stateC]
  rw [show (2:ℕ) = 1 + 1 from rfl, swapTrace_succ_eq, if_neg hg1, swapStepOnceD_eval]
  dsimp only
  rw [swapTrace_succ_eq, if_pos (Or.inl (by norm_num [f18, stateD2]))]

/-- Counterexample for C4 as stated: on `poolD` (whole fee diverted to
the protocol) a completed swap has an iteration with positive liquidity,
yet the fee-growth accumulator at exit equals its value at entry, so
"strictly increases" fails. -/
theorem feeGrowth_strict_counterexample :
    processSwapSteps 2 poolD (1 / 2) false true stateC [] =
        some (.ok (stateD2, [])) ∧
      (∃ t ∈ swapTrace 2 poolD (1 / 2) false true stateC [], 0 < t.liquidity) ∧
      stateD2.feeGrowthGlobalX = stateC.feeGrowthGlobalX := by
  refine ⟨processSwapStepsD_eval, ?_, by norm_num [stateD2, stateC]⟩
  rw [swapTraceD_eval]
  exact ⟨stateC, by simp, by norm_num [stateC]⟩

theorem userPosLoop_succ_eq (ledger : OwnerLedger) (fuel : ℕ) (st : PagingState) :
    userPosLoop ledger (fuel + 1) st =
      (if (userPosLoopBody ledger st).2 then
        if (userPosLoopBody ledger st).1.required ≠ 0 ∧
            (userPosLoopBody ledger st).1.cursor ≠ "" then
          userPosLoop ledger fuel (userPosLoopBody ledger st).1
        else some (userPosLoopBody ledger st).1
      else some (userPosLoopBody ledger st).1) := rfl

theorem userPosLoopBody_newLocal (ledger : OwnerLedger) (st : PagingState) :
    (userPosLoopBody ledger st).1.newLocal = (st.toSkip : ℤ) + st.required := by
  unfold userPosLoopBody
  dsimp only
  split_ifs <;> rfl

theorem userPosLoopBody_toSkip_le (ledger : OwnerLedger) (st : PagingState) :
    (userPosLoopBody ledger st).1.toSkip ≤ st.toSkip := by
  unfold userPosLoopBody
  dsimp only
  split_ifs <;> simp [Nat.sub_le]

theorem userPosLoopBody_break_cursor (ledger : OwnerLedger) (st : PagingState)
    (h : (userPosLoopBody ledger st).2 = false) :
    (userPosLoopBody ledger st).1.cursor = "" := by
  unfold userPosLoopBody at h ⊢
  dsimp only at h ⊢
  split_ifs at h ⊢ <;> simp_all

theorem userPosLoopBody_required_of_skip (ledger : OwnerLedger) (st : PagingState)
    (h : 0 < (userPosLoopBody ledger st).1.toSkip) :
    (userPosLoopBody ledger st).1.required = st.required := by
  unfold userPosLoopBody at h ⊢
  dsimp only at h ⊢
  split_ifs at h ⊢ <;> simp_all

theorem userPosLoop_toSkip_le (ledger : OwnerLedger) :
    ∀ fuel st fin, userPosLoop ledger fuel st = some fin → fin.toSkip ≤ st.toSkip := by
  intro fuel
  induction fuel with
  | zero => intro st fin h; exact absurd h (by simp [userPosLoop])
  | succ n ih =>
    intro st fin h
    rw [userPosLoop_succ_eq] at h
    split at h
    · split at h
      · exact le_trans (ih _ _ h) (userPosLoopBody_toSkip_le ledger st)
      · cases h; exact userPosLoopBody_toSkip_le ledger st
    · cases h; exact userPosLoopBody_toSkip_le ledger st

theorem userPosLoop_skip_exhausts (ledger : OwnerLedger) :
    ∀ fuel st fin, st.required ≠ 0 → userPosLoop ledger fuel st = some fin →
      0 < fin.toSkip → fin.cursor = "" := by
  intro fuel
  induction fuel with
  | zero => intro st fin _ h; exact absurd h (by simp [userPosLoop])
  | succ n ih =>
    intro st fin hreq h hskip
    rw [userPosLoop_succ_eq] at h
    split at h
    · split at h
      · rename_i hcond
        exact ih _ _ hcond.1 h hskip
      · rename_i hcond
        cases h
        rcases not_and_or.mp hcond with h0 | hc
        · push_neg at h0
          have := userPosLoopBody_required_of_skip ledger st hskip
          exact absurd (this ▸ h0) hreq
        · push_neg at hc
          exact hc
    · cases h
      exact userPosLoopBody_break_cursor ledger st (Bool.eq_false_iff.mpr (by assumption))

/-- C3 counterexample: with two ledger pages of 10 and 5 positions, input
bookmark splitting to chain part empty and local part 12, and limit 2,
the call succeeds but returns bookmark "x|4" (chain cursor and skip
counter of the final page fetch), not the claimed input-derived
chainBookmark with local part localBookmark + limit = 14. -/
theorem bookmark_construction_counterexample :
    getUserPositions ledgerE 2 "|12" =
      .ok ([⟨"h1", "0:1", "m"⟩, ⟨"h1", "0:1", "n"⟩], "x|4") ∧
    "x|4" ≠ genBookMark (splitBookmark "|12").1
      (toString ((parseLocal (splitBookmark "|12").2 : ℤ) + 2)) := by
  constructor
  · decide
  · decide

/-- C3 (amended): on success the returned bookmark is built from the
final loop state: empty when the chain cursor is exhausted with the last
element consumed; otherwise the final chain cursor joined with an empty
local part when the last element was consumed and with the final
newLocal counter otherwise. Whenever the loop performs a single page
fetch, that counter equals the input's local part plus limit. -/
theorem bookmark_construction (ledger : OwnerLedger) (limit : ℤ) (bookmark : String)
    (fin : PagingState) (ps : List PositionInfo) (bm : String)
    (hloop : userPosLoop ledger (ledger.length + 2) (userPosInit limit bookmark) =
      some fin)
    (hok : getUserPositions ledger limit bookmark = .ok (ps, bm)) :
    (fin.cursor = "" ∧ fin.isLast = true → bm = "") ∧
    (¬(fin.cursor = "" ∧ fin.isLast = true) →
      bm = genBookMark fin.cursor (if fin.isLast then "" else toString fin.newLocal)) ∧
    ((userPosLoopBody ledger (userPosInit limit bookmark)).2 = false ∨
        ¬((userPosLoopBody ledger (userPosInit limit bookmark)).1.required ≠ 0 ∧
          (userPosLoopBody ledger (userPosInit limit bookmark)).1.cursor ≠ "") →
      fin.newLocal = (parseLocal (splitBookmark bookmark).2 : ℤ) + limit) := by
  unfold getUserPositions at hok
  rw [hloop] at hok
  dsimp only at hok
  split at hok
  · cases hok
  · have hbm : bm = finishBookmark fin := (congrArg Prod.snd (Except.ok.inj hok)).symm
    refine ⟨?_, ?_, ?_⟩
    · intro hex
      rw [hbm, finishBookmark, if_pos hex]
    · intro hex
      rw [hbm, finishBookmark, if_neg hex]
    · intro hsingle
      have h2 : ledger.length + 2 = ledger.length + 1 + 1 := rfl
      rw [h2, userPosLoop_succ_eq] at hloop
      have hfin : fin = (userPosLoopBody ledger (userPosInit limit bookmark)).1 := by
        rcases hsingle with h2f | hcf
        · rw [h2f] at hloop
          simp only [Bool.false_eq_true, if_false] at hloop
          exact (Option.some.inj hloop).symm
        · rw [if_neg hcf] at hloop
          split at hloop <;> exact (Option.some.inj hloop).symm
      rw [hfin, userPosLoopBody_newLocal]
      rfl

/-- C3 witness: a single-page ledger with two positions, limit 1, empty
bookmark: the loop makes one fetch, ends with empty cursor but isLast
false, and the returned bookmark is built from the final state. -/
theorem bookmark_construction_witness :
    userPosLoop ledgerW3 3 (userPosInit 1 "") = some finW3 ∧
    ("|1" : String) =
      genBookMark finW3.cursor (if finW3.isLast then "" else toString finW3.newLocal) ∧
    finW3.newLocal = (parseLocal (splitBookmark "").2 : ℤ) + 1 :=
  ⟨by decide,
    (bookmark_construction ledgerW3 1 "" finW3 [⟨"hw", "0:1", "a"⟩] "|1" (by decide)
        (by decide)).2.1 (by decide),
    (bookmark_construction ledgerW3 1 "" finW3 [⟨"hw", "0:1", "a"⟩] "|1" (by decide)
        (by decide)).2.2 (by decide)⟩

/-- C7: with a positive limit, a terminating paging run raises exactly
the Invalid bookmark validation error, and it does so precisely when the
loop exhausted the chain cursor with a positive skip counter left. -/
theorem invalid_bookmark_error (ledger : OwnerLedger) (limit : ℤ) (bookmark : String)
    (fin : PagingState) (hlim : 1 ≤ limit)
    (hloop : userPosLoop ledger (ledger.length + 2) (userPosInit limit bookmark) =
      some fin) :
    (getUserPositions ledger limit bookmark =
        .error (.validationFailedError ("Invalid bookmark")) ↔
      fin.cursor = "" ∧ 0 < fin.toSkip) ∧
    ∀ e, getUserPositions ledger limit bookmark = .error e →
      e = .validationFailedError ("Invalid bookmark") := by
  have hg : getUserPositions ledger limit bookmark =
      if fin.toSkip ≠ 0 then .error (.validationFailedError ("Invalid bookmark"))
      else .ok (fin.positions, finishBookmark fin) := by
    unfold getUserPositions
    rw [hloop]
  by_cases hts : fin.toSkip = 0
  · rw [hg, if_neg (by omega)]
    refine ⟨?_, ?_⟩
    · simp [hts]
    · intro e he
      cases he
  · rw [hg, if_pos hts]
    have hc : fin.cursor = "" :=
      userPosLoop_skip_exhausts ledger (ledger.length + 2) (userPosInit limit bookmark)
        fin (by show limit ≠ 0; omega) hloop (Nat.pos_of_ne_zero hts)
    refine ⟨⟨fun _ => ⟨hc, Nat.pos_of_ne_zero hts⟩, fun _ => rfl⟩, ?_⟩
    intro e he
    exact (Except.error.inj he).symm

/-- C7 witness: one page of one position, bookmark skipping three
positions, limit 1: the loop ends with empty cursor and two positions
still to skip, and the call raises Invalid bookmark. -/
theorem invalid_bookmark_error_witness :
    getUserPositions ledgerW7 1 "|3" =
      .error (.validationFailedError ("Invalid bookmark")) :=
  (invalid_bookmark_error ledgerW7 1 "|3" finW7 (by decide) (by decide)).1.mpr
    (by decide)

/-- C10 counterexample: a ledger with a single empty page, empty
bookmark (local part 0, equal to the page's position count) and no next
cursor: the call returns the empty exhausted bookmark, not the claimed
bookmark with empty chain part and local part 0 + limit. -/
theorem emptying_page_empty_result_counterexample :
    getUserPositions [[]] 5 "" = .ok ([], "") ∧
    ("" : String) ≠ genBookMark "" (toString ((0 : ℤ) + 5)) := by
  constructor
  · decide
  · decide

/-- C10 (amended): when the input bookmark's local part equals the
flattened position count of the page at its chain part, that count is
positive, and the page reports no further cursor, the call succeeds with
no positions and bookmark empty-chain | count + limit. The claim's
statement additionally asserted this for a zero count, where the code
instead returns the empty exhausted bookmark. -/
theorem emptying_page_bookmark (ledger : OwnerLedger) (limit : ℤ) (bookmark : String)
    (pg : List DexPositionOwner) (n : ℕ)
    (hpage : fetchPage ledger (splitBookmark bookmark).1 = (pg, ""))
    (hlen : (flattenOwners pg).length = n)
    (hskip : parseLocal (splitBookmark bookmark).2 = n)
    (hn : 0 < n) :
    getUserPositions ledger limit bookmark =
      .ok ([], genBookMark "" (toString ((n : ℤ) + limit))) := by
  subst hlen
  have hb : userPosLoopBody ledger (userPosInit limit bookmark) =
      (⟨"", 0, limit, ((flattenOwners pg).length : ℤ) + limit, false, []⟩, true) := by
    unfold userPosLoopBody userPosInit
    dsimp only
    rw [hskip, hpage]
    dsimp only
    rw [if_neg (by omega), if_pos (le_refl _)]
    simp
  have hloop : userPosLoop ledger (ledger.length + 2) (userPosInit limit bookmark) =
      some ⟨"", 0, limit, ((flattenOwners pg).length : ℤ) + limit, false, []⟩ := by
    have h2 : ledger.length + 2 = ledger.length + 1 + 1 := rfl
    rw [h2, userPosLoop_succ_eq, hb]
    simp
  unfold getUserPositions
  rw [hloop]
  simp [finishBookmark, genBookMark]

/-- C10 witness: one page holding one position, bookmark local part 1
equal to the page length, no further cursor, limit 3: success with no
positions and bookmark "|4". -/
theorem emptying_page_bookmark_witness :
    fetchPage ledgerW10 (splitBookmark "|1").1 = ([⟨"h", [("0:1", ["a"])]⟩], "") ∧
    getUserPositions ledgerW10 3 "|1" =
      .ok ([], genBookMark "" (toString ((1 : ℤ) + 3))) :=
  ⟨by decide,
    emptying_page_bookmark ledgerW10 3 "|1" [⟨"h", [("0:1", ["a"])]⟩] 1 (by decide)
      (by decide) (by decide) (by decide)⟩

theorem lookupPool_putPool (ps : List (PoolKey × PoolRec)) (k : PoolKey) (p : PoolRec) :
    lookupPool (putPool ps k p) k = some p := by
  simp [lookupPool, putPool]

/-- C8: configurePoolDexFee fails NotFound without a protocol fee
configuration; Unauthorized when the caller is not an authority; with a
validation failure when the requested fee is outside [0, 1]; and for an
authorized caller, an existing pool and an in-range fee it succeeds,
persists the pool with the new protocol fee and returns that fee. -/
theorem configurePoolDexFee_semantics (ctx : FeeCtx) (dto : ConfigurePoolDexFeeDto) :
    (ctx.feeConfig = none →
      configurePoolDexFee ctx dto = .error (.notFoundError
        ("Protocol fee configuration has yet to be defined. Dex fee configuration is not defined."))) ∧
    (∀ cfg, ctx.feeConfig = some cfg → ctx.callingUser ∉ cfg.authorities →
      configurePoolDexFee ctx dto = .error (.unauthorizedError
        ("CallingUser " ++ ctx.callingUser ++ " is not authorized to create or update"))) ∧
    (∀ cfg pool, ctx.feeConfig = some cfg → ctx.callingUser ∈ cfg.authorities →
      dto.token0 < dto.token1 →
      lookupPool ctx.pools (dto.token0, dto.token1, dto.fee) = some pool →
      ¬(0 ≤ dto.protocolFee ∧ dto.protocolFee ≤ 1) →
      ∃ e, configurePoolDexFee ctx dto = .error e ∧ e.isValidation = true) ∧
    (∀ cfg pool, ctx.feeConfig = some cfg → ctx.callingUser ∈ cfg.authorities →
      dto.token0 < dto.token1 →
      lookupPool ctx.pools (dto.token0, dto.token1, dto.fee) = some pool →
      0 ≤ dto.protocolFee → dto.protocolFee ≤ 1 →
      ∃ pools2, configurePoolDexFee ctx dto = .ok (pools2, dto.protocolFee) ∧
        lookupPool pools2 (dto.token0, dto.token1, dto.fee) =
          some { pool with protocolFees := dto.protocolFee }) := by
  refine ⟨?_, ?_, ?_, ?_⟩
  · intro hnone
    unfold configurePoolDexFee
    rw [hnone]
  · intro cfg hcfg hmem
    unfold configurePoolDexFee
    rw [hcfg]
    dsimp only
    rw [if_neg hmem]
  · intro cfg pool hcfg hmem htok hpool hf
    refine ⟨.validationFailedError ("Protocol fee is out of bounds"), ?_, rfl⟩
    unfold configurePoolDexFee
    rw [hcfg]
    dsimp only
    rw [if_pos hmem, validateTokenOrder, if_pos htok]
    dsimp only
    rw [hpool]
    dsimp only
    rw [configureProtocolFee, if_neg hf]
  · intro cfg pool hcfg hmem htok hpool hf0 hf1
    refine ⟨putPool ctx.pools (dto.token0, dto.token1, dto.fee)
      { pool with protocolFees := dto.protocolFee }, ?_, lookupPool_putPool _ _ _⟩
    unfold configurePoolDexFee
    rw [hcfg]
    dsimp only
    rw [if_pos hmem, validateTokenOrder, if_pos htok]
    dsimp only
    rw [hpool]
    dsimp only
    rw [configureProtocolFee, if_pos ⟨hf0, hf1⟩]

/-- C8 witness: an authority caller updates an existing pool's protocol
fee to 1/10: the call succeeds and the persisted pool carries the new
fee. -/
theorem configurePoolDexFee_semantics_witness :
    ∃ pools2, configurePoolDexFee ctxW8 dtoW8 = .ok (pools2, dtoW8.protocolFee) ∧
      lookupPool pools2 (dtoW8.token0, dtoW8.token1, dtoW8.fee) =
        some { token0 := "A", token1 := "B", fee := 1, protocolFees := dtoW8.protocolFee } :=
  (configurePoolDexFee_semantics ctxW8 dtoW8).2.2.2 ⟨["alice"]⟩ ⟨"A", "B", 1, 0⟩ rfl
    (by decide) (by simp [dtoW8, String.lt_iff_toList_lt]; decide)
    (by simp [lookupPool, ctxW8, dtoW8]) (by norm_num [dtoW8])
    (by norm_num [dtoW8])

/-- C9 counterexample: a single negative decimal argument makes
requirePosititve throw the Conflict error "Uint Out of Bounds error
:Uint", which is not a validation-failure error as the claim states. -/
theorem requirePosititve_error_class_counterexample :
    requirePosititve [DexArg.bigNumber (-1)] =
      .error (.conflictError ("Uint Out of Bounds error :Uint")) ∧
    (DexError.conflictError ("Uint Out of Bounds error :Uint")).isValidation = false := by
  constructor
  · show (if (-1 : ℚ) < 0 then _ else _) = _
    rw [if_pos (by norm_num)]
  · rfl

/-- C9 (amended): requirePosititve ignores non-decimal arguments,
succeeds when every decimal argument is non-negative, and rejects any
argument list containing a negative decimal with the Conflict error
"Uint Out of Bounds error :Uint" (a conflict, not a validation
failure). -/
theorem requirePosititve_semantics (args : List DexArg) :
    (requirePosititve (.nonDecimal :: args) = requirePosititve args) ∧
    ((∀ v, DexArg.bigNumber v ∈ args → 0 ≤ v) → requirePosititve args = .ok ()) ∧
    ((∃ v, DexArg.bigNumber v ∈ args ∧ v < 0) →
      ∃ e, requirePosititve args = .error e ∧ e.isValidation = false ∧
        e = .conflictError ("Uint Out of Bounds error :Uint")) := by
  refine ⟨rfl, ?_, ?_⟩
  · intro hpos
    induction args with
    | nil => rfl
    | cons a rest ih =>
      cases a with
      | bigNumber v =>
        have h0 : 0 ≤ v := hpos v (List.mem_cons_self _ _)
        show (if v < 0 then _ else _) = _
        rw [if_neg (not_lt.mpr h0)]
        exact ih (fun w hw => hpos w (List.mem_cons_of_mem _ hw))
      | nonDecimal => exact ih (fun w hw => hpos w (List.mem_cons_of_mem _ hw))
  · intro hneg
    induction args with
    | nil =>
      rcases hneg with ⟨v, hv, _⟩
      exact absurd hv (List.not_mem_nil _)
    | cons a rest ih =>
      cases a with
      | bigNumber v =>
        by_cases hv : v < 0
        · refine ⟨.conflictError ("Uint Out of Bounds error :Uint"), ?_, rfl, rfl⟩
          show (if v < 0 then _ else _) = _
          rw [if_pos hv]
        · rcases hneg with ⟨w, hw, hwneg⟩
          rcases List.mem_cons.mp hw with heq | hmem
          · cases DexArg.bigNumber.inj heq
            exact absurd hwneg hv
          · have := ih ⟨w, hmem, hwneg⟩
            rcases this with ⟨e, he, hv2, he2⟩
            refine ⟨e, ?_, hv2, he2⟩
            show (if v < 0 then _ else _) = _
            rw [if_neg hv]
            exact he
      | nonDecimal =>
        rcases hneg with ⟨w, hw, hwneg⟩
        rcases List.mem_cons.mp hw with heq | hmem
        · cases heq
        · rcases ih ⟨w, hmem, hwneg⟩ with ⟨e, he, hv2, he2⟩
          exact ⟨e, he, hv2, he2⟩

/-- C9 witness: the list with a non-decimal, a zero decimal and a
negative decimal argument is rejected with the Conflict error. -/
theorem requirePosititve_semantics_witness :
    ∃ e, requirePosititve [DexArg.nonDecimal, DexArg.bigNumber 0, DexArg.bigNumber (-2)] =
        .error e ∧ e.isValidation = false ∧
      e = .conflictError ("Uint Out of Bounds error :Uint") :=
  (requirePosititve_semantics
      [DexArg.nonDecimal, DexArg.bigNumber 0, DexArg.bigNumber (-2)]).2.2
    ⟨-2, by simp, by norm_num⟩
